import Mathlib

/-!
# lbry.go DHT: identifier type and RPC dispatch

A shallow embedding of `dht/bitmap.go` and `dht/rpc.go`.

Conventions of the embedding.

* A Go `byte` is a `Fin 256`; a Go `string` and a Go `[]byte` are lists of bytes.
* `nodeIDLength` is declared outside the two files and is a parameter of every
  definition that depends on it.
* A Go panic (index out of range, the explicit `panic` of `newBitmapFromBytes`)
  is the result `none`; a normal return is `some`.
* The routing table, the value store, the transaction manager and the bencode
  codec are collaborators declared outside the two files. Their operations
  are fields of `Env`, and of `Codec` for decoding; their states are abstract
  types. `GetClosest` and
  `Get` are queries: they return a result and leave their component as it is.
  `Find` returns a result and a new state of the transaction manager.
* Every call to a collaborator, every write to the UDP socket and every send
  on the result channel of a transaction is appended to the `trace` of the
  node state, in program order, so that statements about which calls happen,
  in which order and how often can be made.
* Logging, the socket write deadline, the result of the socket write and the
  blocking of a channel send are not modelled.
-/

namespace dht

/-- One Go byte. -/
abbrev byte := Fin 256

/-- A Go string: an immutable sequence of bytes. -/
abbrev GoString := List byte

/-! ## bitmap.go -/

/-- The Go type `bitmap`, an array `[nodeIDLength]byte`. -/
structure bitmap (nodeIDLength : Nat) where
  bytes : List byte
  len : bytes.length = nodeIDLength
deriving DecidableEq

/-- Loop of `bitmap.Equals`: the first index at which the arrays differ returns false. -/
def equalsLoop : List byte → List byte → Bool
  | x :: xs, y :: ys => if x ≠ y then false else equalsLoop xs ys
  | _, _ => true

/-- The method `bitmap.Equals`. -/
def bitmap.Equals {nodeIDLength : Nat} (b other : bitmap nodeIDLength) : Bool :=
  equalsLoop b.bytes other.bytes

/-- Loop of `bitmap.Less`: the first index at which the arrays differ decides. -/
def lessLoop : List byte → List byte → Bool
  | x :: xs, y :: ys => if x ≠ y then decide (x.val < y.val) else lessLoop xs ys
  | _, _ => false

/-- The method `bitmap.Less`. -/
def bitmap.Less {nodeIDLength : Nat} (b other : bitmap nodeIDLength) : Bool :=
  lessLoop b.bytes other.bytes

/-- Bitwise exclusive or of two bytes, `b[k] ^ other[k]`. -/
def xorByte (x y : byte) : byte :=
  ⟨(x.val ^^^ y.val) % 256, Nat.mod_lt _ (by decide)⟩

/-- The method `bitmap.Xor`: byte `k` of the result is `b[k] ^ other[k]`. -/
def bitmap.Xor {nodeIDLength : Nat} (b other : bitmap nodeIDLength) : bitmap nodeIDLength :=
  ⟨List.zipWith xorByte b.bytes other.bytes, by
    rw [List.length_zipWith, b.len, other.len, Nat.min_self]⟩

/-- Inner loop of `bitmap.PrefixLen`: the first `j` in `0..7` with
`(x >> (7-j)) & 1 != 0`, if there is one. -/
def firstSetBit (x : byte) : Option Nat :=
  (List.range 8).find? (fun j => (x.val >>> (7 - j)) &&& 1 != 0)

/-- Outer loop of `bitmap.PrefixLen` over the bytes from index `i` on. -/
def prefixLenLoop (numBuckets : Nat) : Nat → List byte → Nat
  | _, [] => numBuckets
  | i, x :: xs =>
    match firstSetBit x with
    | some j => i * 8 + j
    | none => prefixLenLoop numBuckets (i + 1) xs

/-- The method `bitmap.PrefixLen`, the number of leading 0 bits. The constant
`numBuckets` is declared outside the file and is a parameter. -/
def bitmap.PrefixLen {nodeIDLength : Nat} (numBuckets : Nat) (b : bitmap nodeIDLength) : Nat :=
  prefixLenLoop numBuckets 0 b.bytes

/-- The function `newBitmapFromBytes`; `none` is its panic on a wrong length. -/
def newBitmapFromBytes (nodeIDLength : Nat) (data : List byte) : Option (bitmap nodeIDLength) :=
  if h : data.length ≠ nodeIDLength then none
  else some ⟨data, not_not.mp h⟩

/-- The function `newBitmapFromString`. -/
def newBitmapFromString (nodeIDLength : Nat) (data : GoString) : Option (bitmap nodeIDLength) :=
  newBitmapFromBytes nodeIDLength data

/-- The zero value of `bitmap`, the value of `var ret bitmap`: every byte is 0. -/
def bitmap.zero (nodeIDLength : Nat) : bitmap nodeIDLength :=
  ⟨List.replicate nodeIDLength 0, List.length_replicate _ _⟩

/-- Modelled from the spec: the constant `numBuckets`, declared outside the
file; the spec gives it as 8 times the identifier length, the number of bits
of an identifier. -/
def numBuckets (nodeIDLength : Nat) : Nat := 8 * nodeIDLength

/-- Byte `k` of an identifier as an unsigned value; 0 beyond the end. -/
def bitmap.byteAt {nodeIDLength : Nat} (b : bitmap nodeIDLength) (k : Nat) : Nat :=
  (b.bytes.getD k 0).val

/-- Bit `k` of an identifier, where bit 0 is the most significant bit of byte 0. -/
def bitmap.bitAt {nodeIDLength : Nat} (b : bitmap nodeIDLength) (k : Nat) : Nat :=
  (b.byteAt (k / 8) >>> (7 - k % 8)) &&& 1

/-! ## rpc.go: data -/

/-- The part of `net.UDPAddr` the handlers read. -/
structure UDPAddr where
  IP : List byte
  Port : Int
deriving DecidableEq

/-- The type `Node`, declared outside the file, with the fields the handlers set. -/
structure Node (nodeIDLength : Nat) where
  id : bitmap nodeIDLength
  ip : List byte
  port : Int
deriving DecidableEq

/-- The field `Value` of the store arguments, with the field the handlers read. -/
structure storeArgsValue where
  Port : Int
deriving DecidableEq

/-- The store arguments of a request, with the fields the handlers read. -/
structure storeArgs (nodeIDLength : Nat) where
  BlobHash : GoString
  Value : storeArgsValue
  NodeID : bitmap nodeIDLength
deriving DecidableEq

/-- The message type `Request`, with the fields the handlers read. -/
structure Request (nodeIDLength : Nat) where
  ID : GoString
  NodeID : bitmap nodeIDLength
  Method : GoString
  Args : List GoString
  StoreArgs : storeArgs nodeIDLength
deriving DecidableEq

/-- The message type `Response`, with the fields the handlers set. -/
structure Response (nodeIDLength : Nat) where
  ID : GoString
  NodeID : bitmap nodeIDLength
  Data : GoString
  FindNodeData : List (Node nodeIDLength)
  FindValueKey : GoString
deriving DecidableEq

/-- The message type `Error`, with the fields the handlers read. -/
structure Error (nodeIDLength : Nat) where
  ID : GoString
  NodeID : bitmap nodeIDLength
  ExceptionType : GoString
deriving DecidableEq

/-- The interface `Message`, the argument type of `send`. -/
inductive Message (nodeIDLength : Nat) where
  | request (r : Request nodeIDLength)
  | response (r : Response nodeIDLength)
  | error (e : Error nodeIDLength)
deriving DecidableEq

/-- One call to a collaborator, as recorded in the trace of a node. -/
inductive Call (nodeIDLength : Nat) (Tx : Type) where
  /-- The call `dht.conn.WriteToUDP(encoded, addr)`: one outbound datagram. -/
  | writeToUDP (encoded : List byte) (addr : UDPAddr)
  /-- The call `dht.store.Upsert(key, node)`. -/
  | storeUpsert (key : GoString) (node : Node nodeIDLength)
  /-- The call `dht.store.Get(key)`. -/
  | storeGet (key : GoString)
  /-- The call `dht.rt.GetClosest(target, limit)`. -/
  | rtGetClosest (target : bitmap nodeIDLength) (limit : Int)
  /-- The call `dht.rt.Update(node)`. -/
  | rtUpdate (node : Node nodeIDLength)
  /-- The call `dht.tm.Find(id, addr)`. -/
  | tmFind (id : GoString) (addr : UDPAddr)
  /-- The channel send `tx.res <- &response`. -/
  | deliver (tx : Tx) (response : Response nodeIDLength)
deriving DecidableEq

/-- The constants and collaborators that `rpc.go` uses and does not declare. -/
structure Env (nodeIDLength : Nat) (RT ST TM Tx : Type) where
  /-- The constant `bucketSize`. -/
  bucketSize : Int
  /-- The constant `pingSuccessResponse`. -/
  pingSuccessResponse : GoString
  /-- The constant `storeSuccessResponse`. -/
  storeSuccessResponse : GoString
  /-- The function `bencode.EncodeBytes`; `none` is a returned error. -/
  encode : Message nodeIDLength → Option (List byte)
  /-- The method `Update` of the routing table. -/
  rtUpdate : RT → Node nodeIDLength → RT
  /-- The method `GetClosest` of the routing table. -/
  rtGetClosest : RT → bitmap nodeIDLength → Int → List (Node nodeIDLength)
  /-- The method `Upsert` of the value store. -/
  storeUpsert : ST → GoString → Node nodeIDLength → ST
  /-- The method `Get` of the value store. -/
  storeGet : ST → GoString → List (Node nodeIDLength)
  /-- The method `Find` of the transaction manager; it may remove what it returns. -/
  tmFind : TM → GoString → UDPAddr → Option Tx × TM

/-- The node state `DHT` that the handlers read and write. -/
structure DHT (nodeIDLength : Nat) (RT ST TM Tx : Type) where
  /-- The local node; the handlers read `dht.node.id`. -/
  node : Node nodeIDLength
  rt : RT
  store : ST
  tm : TM
  /-- Every collaborator call made so far, oldest first. -/
  trace : List (Call nodeIDLength Tx)

/-- Modelled from the spec: the method name `ping`; the constant `pingMethod`
is declared outside the file. -/
def pingMethod : GoString := [112, 105, 110, 103]

/-- Modelled from the spec: the method name `store`; the constant `storeMethod`
is declared outside the file. -/
def storeMethod : GoString := [115, 116, 111, 114, 101]

/-- Modelled from the spec: the method name `find_node`; the constant
`findNodeMethod` is declared outside the file. -/
def findNodeMethod : GoString := [102, 105, 110, 100, 95, 110, 111, 100, 101]

/-- Modelled from the spec: the method name `find_value`; the constant
`findValueMethod` is declared outside the file. -/
def findValueMethod : GoString := [102, 105, 110, 100, 95, 118, 97, 108, 117, 101]

/-! ## rpc.go: handlers -/

section handlers

variable {nodeIDLength : Nat} {RT ST TM Tx : Type}

/-- The zero value of `Node`, which fills a slice made by `make([]Node, n)`. -/
def Node.zero (nodeIDLength : Nat) : Node nodeIDLength :=
  ⟨⟨List.replicate nodeIDLength 0, List.length_replicate _ _⟩, [], 0⟩

/-- Appends one collaborator call to the trace of a node. -/
def DHT.record (dht : DHT nodeIDLength RT ST TM Tx) (c : Call nodeIDLength Tx) :
    DHT nodeIDLength RT ST TM Tx :=
  { dht with trace := dht.trace ++ [c] }

/-- The function `send`. The second component is true when an error is
returned by the encoder, in which case nothing is written to the socket. The
result of the socket write itself is not modelled. -/
def send (env : Env nodeIDLength RT ST TM Tx) (dht : DHT nodeIDLength RT ST TM Tx)
    (addr : UDPAddr) (data : Message nodeIDLength) : DHT nodeIDLength RT ST TM Tx × Bool :=
  match env.encode data with
  | none => (dht, true)
  | some encoded => (dht.record (.writeToUDP encoded addr), false)

/-- The copy loop of `doFindNodes`: `FindNodeData[i] = n` for every `i, n` of
`closestNodes`, on a slice made with `make([]Node, len(closestNodes))`. -/
def copyNodes (closestNodes : List (Node nodeIDLength)) : List (Node nodeIDLength) :=
  closestNodes.enum.foldl (fun data p => data.set p.1 p.2)
    (List.replicate closestNodes.length (Node.zero nodeIDLength))

/-- The function `doFindNodes`. -/
def doFindNodes (env : Env nodeIDLength RT ST TM Tx) (dht : DHT nodeIDLength RT ST TM Tx)
    (addr : UDPAddr) (request : Request nodeIDLength) :
    Option (DHT nodeIDLength RT ST TM Tx) :=
  match request.Args[0]? with
  | none => none
  | some arg0 =>
    match newBitmapFromString nodeIDLength arg0 with
    | none => none
    | some nodeID =>
      let closestNodes := env.rtGetClosest dht.rt nodeID env.bucketSize
      let dht := dht.record (.rtGetClosest nodeID env.bucketSize)
      if closestNodes.length > 0 then
        let response : Response nodeIDLength :=
          { ID := request.ID, NodeID := dht.node.id, Data := [],
            FindNodeData := copyNodes closestNodes, FindValueKey := [] }
        some (send env dht addr (.response response)).1
      else
        some dht

/-- The two statements that follow the switch of `handleRequest`:
`node := Node{id: request.NodeID, ip: addr.IP, port: addr.Port}` and
`dht.rt.Update(node)`. -/
def updateSender (env : Env nodeIDLength RT ST TM Tx) (addr : UDPAddr)
    (request : Request nodeIDLength) (dht : DHT nodeIDLength RT ST TM Tx) :
    DHT nodeIDLength RT ST TM Tx :=
  let node : Node nodeIDLength := { id := request.NodeID, ip := addr.IP, port := addr.Port }
  { dht with rt := env.rtUpdate dht.rt node, trace := dht.trace ++ [.rtUpdate node] }

/-- The function `handleRequest`. A `return` inside the switch yields the
state reached so far; a case that runs to its end continues with
`updateSender`. -/
def handleRequest (env : Env nodeIDLength RT ST TM Tx) (dht : DHT nodeIDLength RT ST TM Tx)
    (addr : UDPAddr) (request : Request nodeIDLength) :
    Option (DHT nodeIDLength RT ST TM Tx) :=
  if request.NodeID.Equals dht.node.id then
    some dht
  else if request.Method = pingMethod then
    let response : Response nodeIDLength :=
      { ID := request.ID, NodeID := dht.node.id, Data := env.pingSuccessResponse,
        FindNodeData := [], FindValueKey := [] }
    some (updateSender env addr request (send env dht addr (.response response)).1)
  else if request.Method = storeMethod then
    if request.StoreArgs.BlobHash = [] then
      some dht
    else
      let node : Node nodeIDLength :=
        { id := request.StoreArgs.NodeID, ip := addr.IP, port := request.StoreArgs.Value.Port }
      let dht1 : DHT nodeIDLength RT ST TM Tx :=
        { dht with store := env.storeUpsert dht.store request.StoreArgs.BlobHash node,
                   trace := dht.trace ++ [.storeUpsert request.StoreArgs.BlobHash node] }
      let response : Response nodeIDLength :=
        { ID := request.ID, NodeID := dht1.node.id, Data := env.storeSuccessResponse,
          FindNodeData := [], FindValueKey := [] }
      some (updateSender env addr request (send env dht1 addr (.response response)).1)
  else if request.Method = findNodeMethod then
    if request.Args.length < 1 then
      some dht
    else
      match request.Args[0]? with
      | none => none
      | some arg0 =>
        if arg0.length ≠ nodeIDLength then
          some dht
        else
          (doFindNodes env dht addr request).map (updateSender env addr request)
  else if request.Method = findValueMethod then
    if request.Args.length < 1 then
      some dht
    else
      match request.Args[0]? with
      | none => none
      | some arg0 =>
        if arg0.length ≠ nodeIDLength then
          some dht
        else
          let nodes := env.storeGet dht.store arg0
          let dht1 := dht.record (.storeGet arg0)
          if nodes.length > 0 then
            let response : Response nodeIDLength :=
              { ID := request.ID, NodeID := dht1.node.id, Data := [],
                FindNodeData := nodes, FindValueKey := arg0 }
            some (updateSender env addr request (send env dht1 addr (.response response)).1)
          else
            (doFindNodes env dht1 addr request).map (updateSender env addr request)
  else
    some dht

/-- The function `handleResponse`. -/
def handleResponse (env : Env nodeIDLength RT ST TM Tx) (dht : DHT nodeIDLength RT ST TM Tx)
    (addr : UDPAddr) (response : Response nodeIDLength) : DHT nodeIDLength RT ST TM Tx :=
  let found := env.tmFind dht.tm response.ID addr
  let dht1 : DHT nodeIDLength RT ST TM Tx :=
    { dht with tm := found.2, trace := dht.trace ++ [.tmFind response.ID addr] }
  let dht2 : DHT nodeIDLength RT ST TM Tx :=
    match found.1 with
    | some tx => dht1.record (.deliver tx response)
    | none => dht1
  let node : Node nodeIDLength := { id := response.NodeID, ip := addr.IP, port := addr.Port }
  { dht2 with rt := env.rtUpdate dht2.rt node, trace := dht2.trace ++ [.rtUpdate node] }

/-- The function `handleError`. -/
def handleError (env : Env nodeIDLength RT ST TM Tx) (dht : DHT nodeIDLength RT ST TM Tx)
    (addr : UDPAddr) (e : Error nodeIDLength) : DHT nodeIDLength RT ST TM Tx :=
  let node : Node nodeIDLength := { id := e.NodeID, ip := addr.IP, port := addr.Port }
  { dht with rt := env.rtUpdate dht.rt node, trace := dht.trace ++ [.rtUpdate node] }

/-- A value of type `interface{}` as the decoder leaves it in a decoded map:
only its dynamic type matters to `handlePacket`, and for an `int64` its value. -/
inductive Dynamic where
  | int64 (n : Int)
  | string (s : GoString)
  | list
  | dict
deriving DecidableEq

/-- The type `packet`, declared outside the file: a datagram and its source. -/
structure packet where
  data : List byte
  raddr : UDPAddr
deriving DecidableEq

/-- The decoding side of the bencode codec and the header constants, which
`rpc.go` uses and does not declare. -/
structure Codec (nodeIDLength : Nat) where
  /-- The constant `headerTypeField`. -/
  headerTypeField : GoString
  /-- The constant `requestType`. -/
  requestType : Int
  /-- The constant `responseType`. -/
  responseType : Int
  /-- The constant `errorType`. -/
  errorType : Int
  /-- The call `bencode.DecodeBytes(pkt.data, &data)` into a `map[string]interface{}`;
  `none` is a returned error. -/
  decodeMap : List byte → Option (GoString → Option Dynamic)
  /-- The call `bencode.DecodeBytes(pkt.data, &request)`; `none` is a returned error. -/
  decodeRequest : List byte → Option (Request nodeIDLength)
  /-- The call `bencode.DecodeBytes(pkt.data, &response)`; `none` is a returned error. -/
  decodeResponse : List byte → Option (Response nodeIDLength)
  /-- The call `bencode.DecodeBytes(pkt.data, &e)`; `none` is a returned error. -/
  decodeError : List byte → Option (Error nodeIDLength)

/-- The function `handlePacket`. The type assertion `msgType.(int64)` has the
single-value form, which panics when the dynamic type is not `int64`. -/
def handlePacket (codec : Codec nodeIDLength) (env : Env nodeIDLength RT ST TM Tx)
    (dht : DHT nodeIDLength RT ST TM Tx) (pkt : packet) :
    Option (DHT nodeIDLength RT ST TM Tx) :=
  match codec.decodeMap pkt.data with
  | none => some dht
  | some data =>
    match data codec.headerTypeField with
    | none => some dht
    | some msgType =>
      match msgType with
      | .int64 t =>
        if t = codec.requestType then
          match codec.decodeRequest pkt.data with
          | none => some dht
          | some request => handleRequest env dht pkt.raddr request
        else if t = codec.responseType then
          match codec.decodeResponse pkt.data with
          | none => some dht
          | some response => some (handleResponse env dht pkt.raddr response)
        else if t = codec.errorType then
          match codec.decodeError pkt.data with
          | none => some dht
          | some e => some (handleError env dht pkt.raddr e)
        else
          some dht
      | _ => none

/-! ## Observations on a trace -/

/-- The outbound datagrams of a trace, oldest first: payload and destination. -/
def datagrams (trace : List (Call nodeIDLength Tx)) : List (List byte × UDPAddr) :=
  trace.filterMap fun c =>
    match c with
    | .writeToUDP encoded addr => some (encoded, addr)
    | _ => none

/-- The arguments of the calls to the routing table's `Update`, oldest first. -/
def updates (trace : List (Call nodeIDLength Tx)) : List (Node nodeIDLength) :=
  trace.filterMap fun c =>
    match c with
    | .rtUpdate node => some node
    | _ => none

/-- The arguments of the calls to the routing table's `GetClosest`, oldest first. -/
def closestQueries (trace : List (Call nodeIDLength Tx)) : List (bitmap nodeIDLength × Int) :=
  trace.filterMap fun c =>
    match c with
    | .rtGetClosest target limit => some (target, limit)
    | _ => none

/-- The arguments of the calls to the value store's `Upsert`, oldest first. -/
def upserts (trace : List (Call nodeIDLength Tx)) : List (GoString × Node nodeIDLength) :=
  trace.filterMap fun c =>
    match c with
    | .storeUpsert key node => some (key, node)
    | _ => none

/-- The deliveries to transaction slots, oldest first. -/
def deliveries (trace : List (Call nodeIDLength Tx)) : List (Tx × Response nodeIDLength) :=
  trace.filterMap fun c =>
    match c with
    | .deliver tx response => some (tx, response)
    | _ => none

/-- What an outside observer of one handled request can see afterwards: the
outbound datagrams, the routing table and the value store. -/
def observable (dht : DHT nodeIDLength RT ST TM Tx) : List (List byte × UDPAddr) × RT × ST :=
  (datagrams dht.trace, dht.rt, dht.store)

/-- The requests that the dispatch rules list as dropped by an early return:
a self-request, a store without key, a find without target or with a target
of the wrong length, and an unknown method. -/
def droppedEarly (dht : DHT nodeIDLength RT ST TM Tx) (request : Request nodeIDLength) : Bool :=
  decide (request.NodeID = dht.node.id)
  || (request.Method == storeMethod && request.StoreArgs.BlobHash == [])
  || ((request.Method == findNodeMethod || request.Method == findValueMethod)
      && (match request.Args with
          | [] => true
          | target :: _ => target.length != nodeIDLength))
  || !(request.Method == pingMethod || request.Method == storeMethod
      || request.Method == findNodeMethod || request.Method == findValueMethod)

end handlers

/-! ## A small concrete node

Identifiers of one byte, a routing table and a value store kept as lists, and
an encoder that writes the fields of a response one after the other. -/

namespace demo

/-- The identifier with the single byte `x`. -/
def mkID (x : byte) : bitmap 1 := ⟨[x], rfl⟩

/-- Bytes of a peer record. -/
def encodeNode (n : Node 1) : List byte := n.id.bytes ++ n.ip

/-- An encoder for responses; requests and errors are not encoded. -/
def encode : Message 1 → Option (List byte)
  | .response r =>
    some (r.ID ++ r.NodeID.bytes ++ r.Data ++ r.FindValueKey ++ (r.FindNodeData.map encodeNode).flatten)
  | _ => none

/-- A node environment over list-based collaborators. -/
def env : Env 1 (List (Node 1)) (List (GoString × Node 1)) (List (GoString × UDPAddr)) Nat where
  bucketSize := 8
  pingSuccessResponse := [112, 111, 110, 103]
  storeSuccessResponse := [79, 75]
  encode := encode
  rtUpdate := fun rt n => n :: rt.filter (fun m => m.id != n.id)
  rtGetClosest := fun rt _ limit => rt.take limit.toNat
  storeUpsert := fun st key n => (key, n) :: st.filter (fun e => !(e.1 == key && e.2.id == n.id))
  storeGet := fun st key => (st.filter (fun e => e.1 == key)).map (fun e => e.2)
  tmFind := fun tm id addr =>
    if (id, addr) ∈ tm then (some (tm.indexOf (id, addr)), tm.erase (id, addr)) else (none, tm)

/-- A remote peer. -/
def peer : Node 1 := ⟨mkID 5, [10, 0, 0, 5], 4444⟩

/-- The local node, with empty routing table and value store. -/
def emptyNode : DHT 1 (List (Node 1)) (List (GoString × Node 1)) (List (GoString × UDPAddr)) Nat :=
  ⟨⟨mkID 1, [127, 0, 0, 1], 4000⟩, [], [], [], []⟩

/-- The local node knowing one peer, who also holds the value with key `[9]`. -/
def node : DHT 1 (List (Node 1)) (List (GoString × Node 1)) (List (GoString × UDPAddr)) Nat :=
  ⟨⟨mkID 1, [127, 0, 0, 1], 4000⟩, [peer], [([9], peer)], [], []⟩

/-- The source address of the datagrams. -/
def addr : UDPAddr := ⟨[10, 0, 0, 7], 5000⟩

/-- A request from the identifier `[7]` with the given method and arguments. -/
def request (method : GoString) (args : List GoString) : Request 1 :=
  ⟨[42], mkID 7, method, args, ⟨[], ⟨0⟩, mkID 0⟩⟩

/-- A store request from the identifier `[7]` announcing the key `[9]` on port 3333. -/
def storeRequest (key : GoString) : Request 1 :=
  ⟨[42], mkID 7, storeMethod, [], ⟨key, ⟨3333⟩, mkID 8⟩⟩

/-- A decoder for the demo node. The header field is the string `0` and the
message types are 0, 1 and 2. A datagram is read as a map of at most one
entry: `[0]` is the empty map, `[1, t]` maps the header field to the integer
`t`, and `2 :: s` maps the header field to the byte string `s`; anything else
is not a map. No datagram decodes as a message. -/
def codec : Codec 1 where
  headerTypeField := [48]
  requestType := 0
  responseType := 1
  errorType := 2
  decodeMap := fun data =>
    match data with
    | [0] => some (fun _ => none)
    | [1, t] => some (fun k => if k = [48] then some (.int64 t.val) else none)
    | 2 :: s => some (fun k => if k = [48] then some (.string s) else none)
    | _ => none
  decodeRequest := fun _ => none
  decodeResponse := fun _ => none
  decodeError := fun _ => none

/-- A datagram whose header field holds the byte string `a`, not an integer. -/
def stringHeaderPacket : packet := ⟨[2, 97], addr⟩

/-- A datagram whose header field holds the integer 7, outside the known set. -/
def unknownTypePacket : packet := ⟨[1, 7], addr⟩

/-- A datagram that decodes as a map without header field. -/
def noHeaderPacket : packet := ⟨[0], addr⟩

end demo

/-! ## Lemmas on the identifier type and on the helpers -/

theorem equalsLoop_iff (xs ys : List byte) (h : xs.length = ys.length) :
    equalsLoop xs ys = true ↔ xs = ys := by
  induction xs generalizing ys with
  | nil => cases ys <;> simp_all [equalsLoop]
  | cons x xs ih =>
    cases ys with
    | nil => simp at h
    | cons y ys =>
      have h' : xs.length = ys.length := by simpa using h
      by_cases hxy : x = y
      · simp [equalsLoop, hxy, ih ys h']
      · simp [equalsLoop, hxy]

theorem bitmap.ext_bytes {n : Nat} (a b : bitmap n) (h : a.bytes = b.bytes) : a = b := by
  cases a; cases b; cases h; rfl

theorem bitmap.Equals_iff {n : Nat} (a b : bitmap n) : a.Equals b = true ↔ a = b := by
  unfold bitmap.Equals
  rw [equalsLoop_iff _ _ (a.len.trans b.len.symm)]
  exact ⟨bitmap.ext_bytes a b, fun h => h ▸ rfl⟩

theorem bitmap.Equals_eq_false {n : Nat} (a b : bitmap n) (h : a ≠ b) : a.Equals b = false := by
  cases hE : a.Equals b
  · rfl
  · exact absurd ((bitmap.Equals_iff a b).mp hE) h

theorem copyLoop_aux {α : Type} (z : α) (xs pre : List α) :
    (List.enumFrom pre.length xs).foldl (fun data p => data.set p.1 p.2)
      (pre ++ List.replicate xs.length z) = pre ++ xs := by
  induction xs generalizing pre with
  | nil => simp
  | cons x xs ih =>
    have hset : (pre ++ List.replicate (x :: xs).length z).set pre.length x
        = (pre ++ [x]) ++ List.replicate xs.length z := by
      simp [List.replicate_succ, List.set_append]
    have hlen : (pre ++ [x]).length = pre.length + 1 := by simp
    simp only [List.enumFrom_cons, List.foldl_cons]
    rw [hset, ← hlen, ih (pre ++ [x])]
    simp

theorem copyNodes_eq {n : Nat} (xs : List (Node n)) : copyNodes xs = xs := by
  have h := copyLoop_aux (Node.zero n) xs []
  simpa [copyNodes, List.enum] using h

section traces

variable {nodeIDLength : Nat} {RT ST TM Tx : Type}

theorem datagrams_append (t u : List (Call nodeIDLength Tx)) :
    datagrams (t ++ u) = datagrams t ++ datagrams u := by
  simp [datagrams, List.filterMap_append]

theorem updates_append (t u : List (Call nodeIDLength Tx)) :
    updates (t ++ u) = updates t ++ updates u := by
  simp [updates, List.filterMap_append]

theorem closestQueries_append (t u : List (Call nodeIDLength Tx)) :
    closestQueries (t ++ u) = closestQueries t ++ closestQueries u := by
  simp [closestQueries, List.filterMap_append]

theorem deliveries_append (t u : List (Call nodeIDLength Tx)) :
    deliveries (t ++ u) = deliveries t ++ deliveries u := by
  simp [deliveries, List.filterMap_append]

end traces

theorem newBitmapFromString_bytes {n : Nat} (b : bitmap n) :
    newBitmapFromString n b.bytes = some b := by
  cases b with
  | mk bytes len => simp [newBitmapFromString, newBitmapFromBytes, len]

section sending

variable {nodeIDLength : Nat} {RT ST TM Tx : Type}

/-- The datagrams that one call of `send` adds: the encoding of the message
when the encoder succeeds, nothing otherwise. -/
theorem send_datagrams (env : Env nodeIDLength RT ST TM Tx) (d : DHT nodeIDLength RT ST TM Tx)
    (addr : UDPAddr) (m : Message nodeIDLength) :
    datagrams (send env d addr m).1.trace
      = datagrams d.trace ++ (env.encode m).toList.map (fun e => (e, addr)) := by
  unfold send
  cases env.encode m <;> simp [DHT.record, datagrams_append, datagrams]

theorem send_updates (env : Env nodeIDLength RT ST TM Tx) (d : DHT nodeIDLength RT ST TM Tx)
    (addr : UDPAddr) (m : Message nodeIDLength) :
    updates (send env d addr m).1.trace = updates d.trace := by
  unfold send
  cases env.encode m <;> simp [DHT.record, updates_append, updates]

theorem send_closestQueries (env : Env nodeIDLength RT ST TM Tx)
    (d : DHT nodeIDLength RT ST TM Tx) (addr : UDPAddr) (m : Message nodeIDLength) :
    closestQueries (send env d addr m).1.trace = closestQueries d.trace := by
  unfold send
  cases env.encode m <;> simp [DHT.record, closestQueries_append, closestQueries]

theorem send_state (env : Env nodeIDLength RT ST TM Tx) (d : DHT nodeIDLength RT ST TM Tx)
    (addr : UDPAddr) (m : Message nodeIDLength) :
    (send env d addr m).1.rt = d.rt ∧ (send env d addr m).1.store = d.store
      ∧ (send env d addr m).1.tm = d.tm ∧ (send env d addr m).1.node = d.node := by
  unfold send
  cases env.encode m <;> simp [DHT.record]

/-- What `doFindNodes` does on a request whose first argument holds the bytes
of the identifier `target`: it returns normally, asks the routing table once,
changes no component state, makes no `Update`, and writes the encoding of the
Response that carries the peers found, when there are any. -/
theorem doFindNodes_spec (env : Env nodeIDLength RT ST TM Tx)
    (d : DHT nodeIDLength RT ST TM Tx) (addr : UDPAddr) (request : Request nodeIDLength)
    (target : bitmap nodeIDLength) (rest : List GoString)
    (hargs : request.Args = target.bytes :: rest) :
    ∃ d', doFindNodes env d addr request = some d'
      ∧ d'.rt = d.rt ∧ d'.store = d.store ∧ d'.tm = d.tm ∧ d'.node = d.node
      ∧ updates d'.trace = updates d.trace
      ∧ closestQueries d'.trace = closestQueries d.trace ++ [(target, env.bucketSize)]
      ∧ datagrams d'.trace = datagrams d.trace ++
          (if env.rtGetClosest d.rt target env.bucketSize = [] then []
           else (env.encode (.response
              { ID := request.ID, NodeID := d.node.id, Data := [],
                FindNodeData := env.rtGetClosest d.rt target env.bucketSize,
                FindValueKey := [] })).toList.map (fun e => (e, addr))) := by
  have h0 : request.Args[0]? = some target.bytes := by simp [hargs]
  cases hc : env.rtGetClosest d.rt target env.bucketSize with
  | nil =>
    refine ⟨d.record (.rtGetClosest target env.bucketSize), ?_, rfl, rfl, rfl, rfl, ?_, ?_, ?_⟩
    · simp [doFindNodes, h0, newBitmapFromString_bytes, hc]
    · simp [DHT.record, updates_append, updates]
    · simp [DHT.record, closestQueries_append, closestQueries]
    · simp [DHT.record, datagrams_append, datagrams]
  | cons c cs =>
    obtain ⟨hrt, hstore, htm, hnode⟩ := send_state env
      (d.record (.rtGetClosest target env.bucketSize)) addr
      (.response { ID := request.ID, NodeID := d.node.id, Data := [],
                   FindNodeData := c :: cs, FindValueKey := [] })
    refine ⟨_, ?_, hrt, hstore, htm, hnode, ?_, ?_, ?_⟩
    · simp only [doFindNodes, h0, newBitmapFromString_bytes, hc, copyNodes_eq]
      simp [DHT.record]
    · rw [send_updates]; simp [DHT.record, updates_append, updates]
    · rw [send_closestQueries]; simp [DHT.record, closestQueries_append, closestQueries]
    · rw [send_datagrams]; simp [DHT.record, datagrams_append, datagrams]

theorem updateSender_datagrams (env : Env nodeIDLength RT ST TM Tx) (addr : UDPAddr)
    (request : Request nodeIDLength) (d : DHT nodeIDLength RT ST TM Tx) :
    datagrams (updateSender env addr request d).trace = datagrams d.trace := by
  simp [updateSender, datagrams_append, datagrams]

theorem updateSender_updates (env : Env nodeIDLength RT ST TM Tx) (addr : UDPAddr)
    (request : Request nodeIDLength) (d : DHT nodeIDLength RT ST TM Tx) :
    updates (updateSender env addr request d).trace
      = updates d.trace ++ [{ id := request.NodeID, ip := addr.IP, port := addr.Port }] := by
  simp [updateSender, updates_append, updates]

theorem updateSender_closestQueries (env : Env nodeIDLength RT ST TM Tx) (addr : UDPAddr)
    (request : Request nodeIDLength) (d : DHT nodeIDLength RT ST TM Tx) :
    closestQueries (updateSender env addr request d).trace = closestQueries d.trace := by
  simp [updateSender, closestQueries_append, closestQueries]

/-- The find path from `doFindNodes` to the end of `handleRequest`. -/
theorem doFindNodes_updateSender (env : Env nodeIDLength RT ST TM Tx)
    (d : DHT nodeIDLength RT ST TM Tx) (addr : UDPAddr) (request : Request nodeIDLength)
    (target : bitmap nodeIDLength) (rest : List GoString)
    (hargs : request.Args = target.bytes :: rest) :
    ∃ d', (doFindNodes env d addr request).map (updateSender env addr request) = some d'
      ∧ d'.rt = env.rtUpdate d.rt { id := request.NodeID, ip := addr.IP, port := addr.Port }
      ∧ d'.store = d.store
      ∧ updates d'.trace
          = updates d.trace ++ [{ id := request.NodeID, ip := addr.IP, port := addr.Port }]
      ∧ datagrams d'.trace = datagrams d.trace ++
          (if env.rtGetClosest d.rt target env.bucketSize = [] then []
           else (env.encode (.response
              { ID := request.ID, NodeID := d.node.id, Data := [],
                FindNodeData := env.rtGetClosest d.rt target env.bucketSize,
                FindValueKey := [] })).toList.map (fun e => (e, addr))) := by
  obtain ⟨d', hd, hrt, hstore, -, -, hupd, -, hdg⟩ :=
    doFindNodes_spec env d addr request target rest hargs
  refine ⟨updateSender env addr request d', by simp [hd], ?_, ?_, ?_, ?_⟩
  · simp [updateSender, hrt]
  · simp [updateSender, hstore]
  · rw [updateSender_updates, hupd]
  · rw [updateSender_datagrams, hdg]

end sending

theorem handleRequest_self_aux {nodeIDLength : Nat} {RT ST TM Tx : Type}
    (env : Env nodeIDLength RT ST TM Tx) (dht : DHT nodeIDLength RT ST TM Tx) (addr : UDPAddr)
    (request : Request nodeIDLength) (hself : request.NodeID = dht.node.id) :
    handleRequest env dht addr request = some dht := by
  simp [handleRequest, (bitmap.Equals_iff _ _).mpr hself]

theorem storeMethod_ne_ping : storeMethod ≠ pingMethod := by decide

theorem findNodeMethod_ne_ping : findNodeMethod ≠ pingMethod := by decide

theorem findNodeMethod_ne_store : findNodeMethod ≠ storeMethod := by decide

theorem findValueMethod_ne_ping : findValueMethod ≠ pingMethod := by decide

theorem findValueMethod_ne_store : findValueMethod ≠ storeMethod := by decide

theorem findValueMethod_ne_findNode : findValueMethod ≠ findNodeMethod := by decide

/-- The predicate `droppedEarly` on four requests to the demo node: a ping, a
find_node without target, a find_node with two arguments and an unknown method. -/
theorem droppedEarly_demo :
    droppedEarly demo.node (demo.request pingMethod []) = false
      ∧ droppedEarly demo.node (demo.request findNodeMethod []) = true
      ∧ droppedEarly demo.node (demo.request findNodeMethod [[3], [4]]) = false
      ∧ droppedEarly demo.node (demo.request [1, 2] []) = true := by
  decide

section unfolding

variable {nodeIDLength : Nat} {RT ST TM Tx : Type}

/-- The find_node case of `handleRequest` once its checks have passed. -/
theorem handleRequest_findNode_eq (env : Env nodeIDLength RT ST TM Tx)
    (dht : DHT nodeIDLength RT ST TM Tx) (addr : UDPAddr) (request : Request nodeIDLength)
    (key : GoString) (rest : List GoString)
    (hmethod : request.Method = findNodeMethod)
    (hsender : request.NodeID ≠ dht.node.id)
    (hargs : request.Args = key :: rest)
    (hlen : key.length = nodeIDLength) :
    handleRequest env dht addr request
      = (doFindNodes env dht addr request).map (updateSender env addr request) := by
  simp [handleRequest, bitmap.Equals_eq_false _ _ hsender, hmethod, findNodeMethod_ne_ping,
    findNodeMethod_ne_store, hargs, hlen]

/-- The find_value case of `handleRequest` once its checks have passed and the
value store has returned no peer. -/
theorem handleRequest_findValue_miss_eq (env : Env nodeIDLength RT ST TM Tx)
    (dht : DHT nodeIDLength RT ST TM Tx) (addr : UDPAddr) (request : Request nodeIDLength)
    (key : GoString) (rest : List GoString)
    (hmethod : request.Method = findValueMethod)
    (hsender : request.NodeID ≠ dht.node.id)
    (hargs : request.Args = key :: rest)
    (hlen : key.length = nodeIDLength)
    (hget : env.storeGet dht.store key = []) :
    handleRequest env dht addr request
      = (doFindNodes env (dht.record (.storeGet key)) addr request).map
          (updateSender env addr request) := by
  simp [handleRequest, bitmap.Equals_eq_false _ _ hsender, hmethod, findValueMethod_ne_ping,
    findValueMethod_ne_store, findValueMethod_ne_findNode, hargs, hlen, hget]

/-- A find request without target, or with a target of the wrong length, is dropped. -/
theorem handleRequest_find_dropped (env : Env nodeIDLength RT ST TM Tx)
    (dht : DHT nodeIDLength RT ST TM Tx) (addr : UDPAddr) (request : Request nodeIDLength)
    (hmethod : request.Method = findNodeMethod ∨ request.Method = findValueMethod)
    (hargs : request.Args = []
      ∨ ∃ target rest, request.Args = target :: rest ∧ target.length ≠ nodeIDLength) :
    handleRequest env dht addr request = some dht := by
  by_cases hself : request.NodeID = dht.node.id
  · exact handleRequest_self_aux env dht addr request hself
  · have hE := bitmap.Equals_eq_false _ _ hself
    rcases hargs with h | ⟨target, rest, h, hlen⟩
    · rcases hmethod with hm | hm <;>
        simp [handleRequest, hE, hm, findNodeMethod_ne_ping, findNodeMethod_ne_store,
          findValueMethod_ne_ping, findValueMethod_ne_store, findValueMethod_ne_findNode, h]
    · rcases hmethod with hm | hm <;>
        simp [handleRequest, hE, hm, findNodeMethod_ne_ping, findNodeMethod_ne_store,
          findValueMethod_ne_ping, findValueMethod_ne_store, findValueMethod_ne_findNode, h,
          hlen]

end unfolding

/-! ## Dispatch of requests -/

section dispatch

variable {nodeIDLength : Nat} {RT ST TM Tx : Type}

/-- C1: a ping request from a sender other than the local node makes
`handleRequest` return normally having written exactly one datagram, to the
source address of the request; the datagram is the encoding of the Response
with the transaction id of the request, the identifier of the local node and
the ping success payload. The codec is assumed to encode that Response. -/
theorem handleRequest_ping (env : Env nodeIDLength RT ST TM Tx)
    (dht : DHT nodeIDLength RT ST TM Tx) (addr : UDPAddr) (request : Request nodeIDLength)
    (encoded : List byte)
    (hmethod : request.Method = pingMethod)
    (hsender : request.NodeID ≠ dht.node.id)
    (hcodec : env.encode (.response
      { ID := request.ID, NodeID := dht.node.id, Data := env.pingSuccessResponse,
        FindNodeData := [], FindValueKey := [] }) = some encoded) :
    ∃ dht', handleRequest env dht addr request = some dht'
      ∧ datagrams dht'.trace = datagrams dht.trace ++ [(encoded, addr)] := by
  have h : handleRequest env dht addr request
      = some (updateSender env addr request (dht.record (.writeToUDP encoded addr))) := by
    simp [handleRequest, bitmap.Equals_eq_false _ _ hsender, hmethod, send, hcodec]
  exact ⟨_, h, by simp [updateSender, DHT.record, datagrams_append, datagrams]⟩

/-- C1, at the demo node: a ping from identifier `[7]`. -/
theorem handleRequest_ping_witness :
    ∃ dht', handleRequest demo.env demo.node demo.addr (demo.request pingMethod []) = some dht'
      ∧ datagrams dht'.trace
        = datagrams demo.node.trace ++ [([42, 1, 112, 111, 110, 103], demo.addr)] :=
  handleRequest_ping demo.env demo.node demo.addr (demo.request pingMethod [])
    [42, 1, 112, 111, 110, 103] rfl (by decide) rfl

/-- C2: a request whose claimed sender identifier is the identifier of the
local node, whatever its method and arguments, leaves the whole node state as
it was: no datagram is written, the routing table is not updated, the value
store is not modified and no collaborator is called. -/
theorem handleRequest_self (env : Env nodeIDLength RT ST TM Tx)
    (dht : DHT nodeIDLength RT ST TM Tx) (addr : UDPAddr) (request : Request nodeIDLength)
    (hself : request.NodeID = dht.node.id) :
    handleRequest env dht addr request = some dht := by
  simp [handleRequest, (bitmap.Equals_iff _ _).mpr hself]

/-- C2, at the demo node: a store request that claims the local identifier `[1]`. -/
theorem handleRequest_self_witness :
    handleRequest demo.env demo.node demo.addr
      { demo.storeRequest [9] with NodeID := demo.mkID 1 } = some demo.node :=
  handleRequest_self demo.env demo.node demo.addr
    { demo.storeRequest [9] with NodeID := demo.mkID 1 } rfl

/-- C3: a store request from a sender other than the local node with a
non-empty `StoreArgs.BlobHash` makes `handleRequest` return normally after
exactly three collaborator calls, in this order: the upsert into the value
store, under that key, of the peer with the identifier `StoreArgs.NodeID`, the
source IP of the datagram and the port `StoreArgs.Value.Port`; the write of one
datagram to the source address, the encoding of the Response with the
transaction id of the request and the store success payload; and the update of
the routing table. The codec is assumed to encode that Response. -/
theorem handleRequest_store (env : Env nodeIDLength RT ST TM Tx)
    (dht : DHT nodeIDLength RT ST TM Tx) (addr : UDPAddr) (request : Request nodeIDLength)
    (encoded : List byte)
    (hmethod : request.Method = storeMethod)
    (hsender : request.NodeID ≠ dht.node.id)
    (hkey : request.StoreArgs.BlobHash ≠ [])
    (hcodec : env.encode (.response
      { ID := request.ID, NodeID := dht.node.id, Data := env.storeSuccessResponse,
        FindNodeData := [], FindValueKey := [] }) = some encoded) :
    ∃ dht', handleRequest env dht addr request = some dht'
      ∧ dht'.store = env.storeUpsert dht.store request.StoreArgs.BlobHash
          { id := request.StoreArgs.NodeID, ip := addr.IP, port := request.StoreArgs.Value.Port }
      ∧ dht'.trace = dht.trace ++
          [ .storeUpsert request.StoreArgs.BlobHash
              { id := request.StoreArgs.NodeID, ip := addr.IP,
                port := request.StoreArgs.Value.Port },
            .writeToUDP encoded addr,
            .rtUpdate { id := request.NodeID, ip := addr.IP, port := addr.Port } ]
      ∧ datagrams dht'.trace = datagrams dht.trace ++ [(encoded, addr)]
      ∧ upserts dht'.trace = upserts dht.trace ++
          [(request.StoreArgs.BlobHash,
            { id := request.StoreArgs.NodeID, ip := addr.IP,
              port := request.StoreArgs.Value.Port })] := by
  have h : handleRequest env dht addr request
      = some (updateSender env addr request (DHT.record
          { dht with
            store := env.storeUpsert dht.store request.StoreArgs.BlobHash
              { id := request.StoreArgs.NodeID, ip := addr.IP,
                port := request.StoreArgs.Value.Port },
            trace := dht.trace ++ [.storeUpsert request.StoreArgs.BlobHash
              { id := request.StoreArgs.NodeID, ip := addr.IP,
                port := request.StoreArgs.Value.Port }] }
          (.writeToUDP encoded addr))) := by
    simp [handleRequest, bitmap.Equals_eq_false _ _ hsender, hmethod, send, hcodec,
      storeMethod_ne_ping, hkey]
  refine ⟨_, h, rfl, ?_, ?_, ?_⟩
  · simp [updateSender, DHT.record]
  · simp [updateSender, DHT.record, datagrams_append, datagrams]
  · simp [updateSender, DHT.record, upserts, List.filterMap_append]

/-- C3, at the demo node: a store of key `[9]` sent from port 5000 and declaring port 3333. -/
theorem handleRequest_store_witness :
    ∃ dht', handleRequest demo.env demo.emptyNode demo.addr (demo.storeRequest [9]) = some dht'
      ∧ dht'.store = demo.env.storeUpsert demo.emptyNode.store [9]
          { id := demo.mkID 8, ip := [10, 0, 0, 7], port := 3333 }
      ∧ dht'.trace = demo.emptyNode.trace ++
          [ .storeUpsert [9] { id := demo.mkID 8, ip := [10, 0, 0, 7], port := 3333 },
            .writeToUDP [42, 1, 79, 75] demo.addr,
            .rtUpdate { id := demo.mkID 7, ip := [10, 0, 0, 7], port := 5000 } ]
      ∧ datagrams dht'.trace = datagrams demo.emptyNode.trace ++ [([42, 1, 79, 75], demo.addr)]
      ∧ upserts dht'.trace = upserts demo.emptyNode.trace ++
          [([9], { id := demo.mkID 8, ip := [10, 0, 0, 7], port := 3333 })] :=
  handleRequest_store demo.env demo.emptyNode demo.addr (demo.storeRequest [9])
    [42, 1, 79, 75] rfl (by decide) (by decide) rfl

/-- C4: a store request with an empty `StoreArgs.BlobHash`, from any sender,
leaves the whole node state as it was: no datagram is written and the value
store is unchanged. -/
theorem handleRequest_store_no_key (env : Env nodeIDLength RT ST TM Tx)
    (dht : DHT nodeIDLength RT ST TM Tx) (addr : UDPAddr) (request : Request nodeIDLength)
    (hmethod : request.Method = storeMethod)
    (hkey : request.StoreArgs.BlobHash = []) :
    handleRequest env dht addr request = some dht := by
  simp [handleRequest, hmethod, storeMethod_ne_ping, hkey]

/-- C4, at the demo node: a store request without key. -/
theorem handleRequest_store_no_key_witness :
    handleRequest demo.env demo.node demo.addr (demo.storeRequest []) = some demo.node :=
  handleRequest_store_no_key demo.env demo.node demo.addr (demo.storeRequest []) rfl rfl

/-- C5, as stated, fails: a find_node request from a sender other than the
local node with two arguments, the first of identifier length, is not a
request with exactly one argument of identifier length, and still it is
answered with one datagram when the routing table knows a peer. -/
theorem handleRequest_find_node_two_args_replies :
    (demo.request findNodeMethod [[3], [4]]).Method = findNodeMethod
      ∧ (demo.request findNodeMethod [[3], [4]]).NodeID ≠ demo.node.node.id
      ∧ (¬ ∃ target, (demo.request findNodeMethod [[3], [4]]).Args = [target]
            ∧ target.length = 1)
      ∧ (handleRequest demo.env demo.node demo.addr (demo.request findNodeMethod [[3], [4]])).map
          (fun d => datagrams d.trace) = some [([42, 1, 5, 10, 0, 0, 5], demo.addr)] := by
  refine ⟨rfl, by decide, ?_, by decide⟩
  rintro ⟨target, h, _⟩
  simp [demo.request] at h

/-- C5, amended: a find_node request whose argument list is empty, or whose
first argument does not have identifier length, leaves the whole node state as
it was, whatever the routing table contains: no reply is written. -/
theorem handleRequest_find_node_invalid (env : Env nodeIDLength RT ST TM Tx)
    (dht : DHT nodeIDLength RT ST TM Tx) (addr : UDPAddr) (request : Request nodeIDLength)
    (hmethod : request.Method = findNodeMethod)
    (hargs : request.Args = []
      ∨ ∃ target rest, request.Args = target :: rest ∧ target.length ≠ nodeIDLength) :
    handleRequest env dht addr request = some dht := by
  rcases hargs with h | ⟨target, rest, h, hlen⟩
  · simp [handleRequest, hmethod, findNodeMethod_ne_ping, findNodeMethod_ne_store, h]
  · simp [handleRequest, hmethod, findNodeMethod_ne_ping, findNodeMethod_ne_store, h, hlen]

/-- C5, amended, at the demo node: a find_node whose first argument has two bytes. -/
theorem handleRequest_find_node_invalid_witness :
    handleRequest demo.env demo.node demo.addr (demo.request findNodeMethod [[3, 4], [5]])
      = some demo.node :=
  handleRequest_find_node_invalid demo.env demo.node demo.addr
    (demo.request findNodeMethod [[3, 4], [5]]) rfl
    (Or.inr ⟨[3, 4], [[5]], rfl, by decide⟩)

/-- C6: a find_node request from a sender other than the local node whose
first argument holds the bytes of an identifier `target` makes `handleRequest`
return normally. When `GetClosest(target, bucketSize)` returns no peer, no
datagram is written. When it returns peers, exactly one datagram is written,
to the source address: the encoding of the Response whose peer list is the
returned sequence, in its order and length. The codec is assumed to encode
that Response. -/
theorem handleRequest_find_node (env : Env nodeIDLength RT ST TM Tx)
    (dht : DHT nodeIDLength RT ST TM Tx) (addr : UDPAddr) (request : Request nodeIDLength)
    (target : bitmap nodeIDLength) (rest : List GoString)
    (closestNodes : List (Node nodeIDLength))
    (hmethod : request.Method = findNodeMethod)
    (hsender : request.NodeID ≠ dht.node.id)
    (hargs : request.Args = target.bytes :: rest)
    (hclosest : env.rtGetClosest dht.rt target env.bucketSize = closestNodes) :
    ∃ dht', handleRequest env dht addr request = some dht'
      ∧ (closestNodes = [] → datagrams dht'.trace = datagrams dht.trace)
      ∧ (closestNodes ≠ [] → ∀ encoded,
          env.encode (.response
            { ID := request.ID, NodeID := dht.node.id, Data := [],
              FindNodeData := closestNodes, FindValueKey := [] }) = some encoded →
          datagrams dht'.trace = datagrams dht.trace ++ [(encoded, addr)]) := by
  obtain ⟨d, hd, -, -, -, -, -, -, hdg⟩ := doFindNodes_spec env dht addr request target rest hargs
  have h : handleRequest env dht addr request = some (updateSender env addr request d) := by
    simp [handleRequest, bitmap.Equals_eq_false _ _ hsender, hmethod, findNodeMethod_ne_ping,
      findNodeMethod_ne_store, hargs, target.len, hd]
  refine ⟨_, h, ?_, ?_⟩
  · intro hnil
    rw [updateSender_datagrams, hdg, hclosest]
    simp [hnil]
  · intro hne encoded hcodec
    rw [updateSender_datagrams, hdg, hclosest]
    simp [hne, hcodec]

/-- C6, at the demo node, whose routing table knows one peer. -/
theorem handleRequest_find_node_witness :
    ∃ dht', handleRequest demo.env demo.node demo.addr (demo.request findNodeMethod [[3]])
        = some dht'
      ∧ ([demo.peer] = [] → datagrams dht'.trace = datagrams demo.node.trace)
      ∧ ([demo.peer] ≠ [] → ∀ encoded,
          demo.env.encode (.response
            { ID := [42], NodeID := demo.mkID 1, Data := [],
              FindNodeData := [demo.peer], FindValueKey := [] }) = some encoded →
          datagrams dht'.trace = datagrams demo.node.trace ++ [(encoded, demo.addr)]) :=
  handleRequest_find_node demo.env demo.node demo.addr (demo.request findNodeMethod [[3]])
    (demo.mkID 3) [] [demo.peer] rfl (by decide) rfl rfl

/-- C7: a find_value request from a sender other than the local node whose
first argument is a key of identifier length for which the value store
returns a non-empty peer list makes `handleRequest` return normally having
written exactly one datagram, to the source address: the encoding of the
Response whose `FindValueKey` is the key and whose peer list is the list the
store returned. The routing table is not asked for closest peers. The codec
is assumed to encode that Response. -/
theorem handleRequest_find_value_held (env : Env nodeIDLength RT ST TM Tx)
    (dht : DHT nodeIDLength RT ST TM Tx) (addr : UDPAddr) (request : Request nodeIDLength)
    (key : GoString) (rest : List GoString) (nodes : List (Node nodeIDLength))
    (encoded : List byte)
    (hmethod : request.Method = findValueMethod)
    (hsender : request.NodeID ≠ dht.node.id)
    (hargs : request.Args = key :: rest)
    (hlen : key.length = nodeIDLength)
    (hget : env.storeGet dht.store key = nodes)
    (hheld : nodes ≠ [])
    (hcodec : env.encode (.response
      { ID := request.ID, NodeID := dht.node.id, Data := [],
        FindNodeData := nodes, FindValueKey := key }) = some encoded) :
    ∃ dht', handleRequest env dht addr request = some dht'
      ∧ datagrams dht'.trace = datagrams dht.trace ++ [(encoded, addr)]
      ∧ closestQueries dht'.trace = closestQueries dht.trace
      ∧ dht'.trace = dht.trace ++
          [ .storeGet key, .writeToUDP encoded addr,
            .rtUpdate { id := request.NodeID, ip := addr.IP, port := addr.Port } ] := by
  have hpos : 0 < nodes.length := List.length_pos.mpr hheld
  have h : handleRequest env dht addr request
      = some (updateSender env addr request
          ((dht.record (.storeGet key)).record (.writeToUDP encoded addr))) := by
    simp [handleRequest, bitmap.Equals_eq_false _ _ hsender, hmethod, findValueMethod_ne_ping,
      findValueMethod_ne_store, findValueMethod_ne_findNode, hargs, hlen, hget, hpos, send,
      DHT.record, hcodec]
  refine ⟨_, h, ?_, ?_, ?_⟩
  · simp [updateSender, DHT.record, datagrams_append, datagrams]
  · simp [updateSender, DHT.record, closestQueries_append, closestQueries]
  · simp [updateSender, DHT.record]

/-- C7, at the demo node, whose value store holds one peer for the key `[9]`. -/
theorem handleRequest_find_value_held_witness :
    ∃ dht', handleRequest demo.env demo.node demo.addr (demo.request findValueMethod [[9]])
        = some dht'
      ∧ datagrams dht'.trace
          = datagrams demo.node.trace ++ [([42, 1, 9, 5, 10, 0, 0, 5], demo.addr)]
      ∧ closestQueries dht'.trace = closestQueries demo.node.trace
      ∧ dht'.trace = demo.node.trace ++
          [ .storeGet [9], .writeToUDP [42, 1, 9, 5, 10, 0, 0, 5] demo.addr,
            .rtUpdate { id := demo.mkID 7, ip := [10, 0, 0, 7], port := 5000 } ] :=
  handleRequest_find_value_held demo.env demo.node demo.addr
    (demo.request findValueMethod [[9]]) [9] [] [demo.peer] [42, 1, 9, 5, 10, 0, 0, 5]
    rfl (by decide) rfl rfl rfl (by decide) rfl

/-- C8: on every node state, a find_value request whose key has no peers in
the value store is handled like the same request with the method find_node:
both calls return normally, with the same outbound datagrams, the same
routing table and the same value store. -/
theorem handleRequest_find_value_fallback (env : Env nodeIDLength RT ST TM Tx)
    (dht : DHT nodeIDLength RT ST TM Tx) (addr : UDPAddr) (request : Request nodeIDLength)
    (hmethod : request.Method = findValueMethod)
    (hmiss : ∀ key, request.Args[0]? = some key → env.storeGet dht.store key = []) :
    ∃ dht₁ dht₂, handleRequest env dht addr request = some dht₁
      ∧ handleRequest env dht addr { request with Method := findNodeMethod } = some dht₂
      ∧ observable dht₁ = observable dht₂ := by
  by_cases hself : request.NodeID = dht.node.id
  · exact ⟨dht, dht, handleRequest_self_aux env dht addr request hself,
      handleRequest_self_aux env dht addr _ hself, rfl⟩
  · by_cases hnil : request.Args = []
    · exact ⟨dht, dht,
        handleRequest_find_dropped env dht addr request (Or.inr hmethod) (Or.inl hnil),
        handleRequest_find_dropped env dht addr _ (Or.inl rfl) (Or.inl hnil), rfl⟩
    · obtain ⟨key, rest, hargs⟩ := List.exists_cons_of_ne_nil hnil
      by_cases hlen : key.length = nodeIDLength
      · have hget : env.storeGet dht.store key = [] := hmiss key (by simp [hargs])
        obtain ⟨d₁, h₁, hrt₁, hst₁, -, hdg₁⟩ := doFindNodes_updateSender env
          (dht.record (.storeGet key)) addr request ⟨key, hlen⟩ rest hargs
        obtain ⟨d₂, h₂, hrt₂, hst₂, -, hdg₂⟩ := doFindNodes_updateSender env
          dht addr { request with Method := findNodeMethod } ⟨key, hlen⟩ rest hargs
        refine ⟨d₁, d₂, ?_, ?_, ?_⟩
        · rw [handleRequest_findValue_miss_eq env dht addr request key rest hmethod hself
            hargs hlen hget]
          exact h₁
        · exact (handleRequest_findNode_eq env dht addr
            { request with Method := findNodeMethod } key rest rfl hself hargs hlen).trans h₂
        · have hdg : datagrams (dht.record (.storeGet key)).trace = datagrams dht.trace := by
            simp [DHT.record, datagrams_append, datagrams]
          simp only [observable, hdg₁, hdg₂, hrt₁, hrt₂, hst₁, hst₂, hdg]
          rfl
      · exact ⟨dht, dht,
          handleRequest_find_dropped env dht addr request (Or.inr hmethod)
            (Or.inr ⟨key, rest, hargs, hlen⟩),
          handleRequest_find_dropped env dht addr _ (Or.inl rfl)
            (Or.inr ⟨key, rest, hargs, hlen⟩), rfl⟩

/-- C8, at the demo node: a find_value for the key `[3]`, which the store does not hold. -/
theorem handleRequest_find_value_fallback_witness :
    ∃ dht₁ dht₂,
      handleRequest demo.env demo.node demo.addr (demo.request findValueMethod [[3]]) = some dht₁
      ∧ handleRequest demo.env demo.node demo.addr
          { demo.request findValueMethod [[3]] with Method := findNodeMethod } = some dht₂
      ∧ observable dht₁ = observable dht₂ :=
  handleRequest_find_value_fallback demo.env demo.node demo.addr
    (demo.request findValueMethod [[3]]) rfl
    (by intro key hkey; cases hkey; rfl)

/-- C9: `handleRequest` always returns normally, and it calls the routing
table's `Update` exactly once, with the peer built from the claimed sender
identifier of the request and the source IP and port of the datagram, when the
request is not one of those dropped by an early return (self-request, empty
store key, missing or wrong-length find target, unknown method), and not at
all when it is one of them. The routing table afterwards is the updated one in
the first case and the old one in the second. -/
theorem handleRequest_update_iff (env : Env nodeIDLength RT ST TM Tx)
    (dht : DHT nodeIDLength RT ST TM Tx) (addr : UDPAddr) (request : Request nodeIDLength) :
    ∃ dht', handleRequest env dht addr request = some dht'
      ∧ updates dht'.trace = updates dht.trace ++
          (if droppedEarly dht request = true then []
           else [{ id := request.NodeID, ip := addr.IP, port := addr.Port }])
      ∧ dht'.rt =
          (if droppedEarly dht request = true then dht.rt
           else env.rtUpdate dht.rt { id := request.NodeID, ip := addr.IP, port := addr.Port })
    := by
  by_cases hself : request.NodeID = dht.node.id
  · exact ⟨dht, handleRequest_self_aux env dht addr request hself,
      by simp [droppedEarly, hself], by simp [droppedEarly, hself]⟩
  have hE := bitmap.Equals_eq_false _ _ hself
  by_cases hping : request.Method = pingMethod
  · have hdrop : droppedEarly dht request = false := by
      simp [droppedEarly, hself, hping, storeMethod_ne_ping.symm,
        findNodeMethod_ne_ping.symm, findValueMethod_ne_ping.symm]
    refine ⟨_, by simp only [handleRequest, hE, hping]; rfl, ?_, ?_⟩
    · rw [updateSender_updates, send_updates]; simp [hdrop]
    · simp [updateSender, (send_state env dht addr _).1, hdrop]
  by_cases hstore : request.Method = storeMethod
  · by_cases hkey : request.StoreArgs.BlobHash = []
    · refine ⟨dht, by simp [handleRequest, hE, hstore, storeMethod_ne_ping, hkey], ?_, ?_⟩ <;>
        simp [droppedEarly, hstore, hkey]
    · have hdrop : droppedEarly dht request = false := by
        simp [droppedEarly, hself, hstore, hkey, storeMethod_ne_ping,
          findNodeMethod_ne_store.symm, findValueMethod_ne_store.symm]
      refine ⟨_, by simp only [handleRequest, hE, hstore, storeMethod_ne_ping, hkey]; rfl,
        ?_, ?_⟩
      · rw [updateSender_updates, send_updates]
        simp [hdrop, updates_append, updates]
      · simp [updateSender, (send_state env _ addr _).1, hdrop]
  by_cases hfind : request.Method = findNodeMethod ∨ request.Method = findValueMethod
  · by_cases hnil : request.Args = []
    · refine ⟨dht, handleRequest_find_dropped env dht addr request hfind (Or.inl hnil), ?_, ?_⟩ <;>
        rcases hfind with hm | hm <;> simp [droppedEarly, hm, hnil]
    obtain ⟨key, rest, hargs⟩ := List.exists_cons_of_ne_nil hnil
    by_cases hlen : key.length = nodeIDLength
    · have hdrop : droppedEarly dht request = false := by
        rcases hfind with hm | hm <;>
          simp [droppedEarly, hself, hm, hargs, hlen, findNodeMethod_ne_store,
            findValueMethod_ne_store]
      rcases hfind with hm | hm
      · obtain ⟨d, hd, hrt, -, hupd, -⟩ := doFindNodes_updateSender env dht addr request
          ⟨key, hlen⟩ rest hargs
        exact ⟨d, (handleRequest_findNode_eq env dht addr request key rest hm hself hargs
          hlen).trans hd, by rw [hupd]; simp [hdrop], by rw [hrt]; simp [hdrop]⟩
      · by_cases hget : env.storeGet dht.store key = []
        · obtain ⟨d, hd, hrt, -, hupd, -⟩ := doFindNodes_updateSender env
            (dht.record (.storeGet key)) addr request ⟨key, hlen⟩ rest hargs
          refine ⟨d, (handleRequest_findValue_miss_eq env dht addr request key rest hm hself
            hargs hlen hget).trans hd, ?_, ?_⟩
          · rw [hupd]; simp [hdrop, DHT.record, updates_append, updates]
          · rw [hrt]; simp [hdrop, DHT.record]
        · have hpos : 0 < (env.storeGet dht.store key).length := List.length_pos.mpr hget
          refine ⟨_, by
            simp only [handleRequest, hE, hm, findValueMethod_ne_ping, findValueMethod_ne_store,
              findValueMethod_ne_findNode, hargs]
            simp [hlen, hpos]
            rfl, ?_, ?_⟩
          · rw [updateSender_updates, send_updates]
            simp [hdrop, DHT.record, updates_append, updates]
          · simp [updateSender, (send_state env _ addr _).1, hdrop, DHT.record]
    · refine ⟨dht, handleRequest_find_dropped env dht addr request hfind
        (Or.inr ⟨key, rest, hargs, hlen⟩), ?_, ?_⟩ <;>
        rcases hfind with hm | hm <;> simp [droppedEarly, hm, hargs, hlen]
  · have hfn : request.Method ≠ findNodeMethod := fun h => hfind (Or.inl h)
    have hfv : request.Method ≠ findValueMethod := fun h => hfind (Or.inr h)
    refine ⟨dht, by simp [handleRequest, hE, hping, hstore, hfn, hfv], ?_, ?_⟩ <;>
      simp [droppedEarly, hping, hstore, hfn, hfv]

/-- C10: for every Response and source address `handleResponse` updates the
routing table, once, with the peer made of the sender identifier of the
response and the source IP and port, whatever `Find(transaction id, source
address)` returns; and the response is delivered to a transaction slot exactly
once when `Find` returned a transaction, to that transaction, and not at all
when it returned none. -/
theorem handleResponse_update_and_delivery (env : Env nodeIDLength RT ST TM Tx)
    (dht : DHT nodeIDLength RT ST TM Tx) (addr : UDPAddr) (response : Response nodeIDLength) :
    (handleResponse env dht addr response).rt
        = env.rtUpdate dht.rt { id := response.NodeID, ip := addr.IP, port := addr.Port }
      ∧ updates (handleResponse env dht addr response).trace
        = updates dht.trace ++ [{ id := response.NodeID, ip := addr.IP, port := addr.Port }]
      ∧ deliveries (handleResponse env dht addr response).trace
        = deliveries dht.trace ++
            (match (env.tmFind dht.tm response.ID addr).1 with
             | some tx => [(tx, response)]
             | none => []) := by
  rcases hfound : env.tmFind dht.tm response.ID addr with ⟨tx, tm⟩
  cases tx <;>
    simp [handleResponse, hfound, DHT.record, updates_append, updates, deliveries_append,
      deliveries]

end dispatch

/-! ## Dispatch of datagrams -/

section packets

variable {nodeIDLength : Nat} {RT ST TM Tx : Type}

/-- A datagram that does not decode as a map is dropped: the node state is unchanged. -/
theorem handlePacket_not_a_map (codec : Codec nodeIDLength) (env : Env nodeIDLength RT ST TM Tx)
    (dht : DHT nodeIDLength RT ST TM Tx) (pkt : packet)
    (hdecode : codec.decodeMap pkt.data = none) :
    handlePacket codec env dht pkt = some dht := by
  simp [handlePacket, hdecode]

/-- A datagram whose decoded map has no header field is dropped: `handlePacket`
returns normally and the node state is unchanged. -/
theorem handlePacket_no_header (codec : Codec nodeIDLength) (env : Env nodeIDLength RT ST TM Tx)
    (dht : DHT nodeIDLength RT ST TM Tx) (pkt : packet) (data : GoString → Option Dynamic)
    (hdecode : codec.decodeMap pkt.data = some data)
    (hfield : data codec.headerTypeField = none) :
    handlePacket codec env dht pkt = some dht := by
  simp [handlePacket, hdecode, hfield]

/-- A datagram whose header field holds an integer outside the known set is
dropped: `handlePacket` returns normally and the node state is unchanged. -/
theorem handlePacket_unknown_type (codec : Codec nodeIDLength)
    (env : Env nodeIDLength RT ST TM Tx) (dht : DHT nodeIDLength RT ST TM Tx) (pkt : packet)
    (data : GoString → Option Dynamic) (t : Int)
    (hdecode : codec.decodeMap pkt.data = some data)
    (hfield : data codec.headerTypeField = some (.int64 t))
    (hrequest : t ≠ codec.requestType) (hresponse : t ≠ codec.responseType)
    (herror : t ≠ codec.errorType) :
    handlePacket codec env dht pkt = some dht := by
  simp [handlePacket, hdecode, hfield, hrequest, hresponse, herror]

/-- A datagram whose header field holds a value that is not an `int64` makes
`handlePacket` panic, whatever the node state. -/
theorem handlePacket_not_int64 (codec : Codec nodeIDLength)
    (env : Env nodeIDLength RT ST TM Tx) (dht : DHT nodeIDLength RT ST TM Tx) (pkt : packet)
    (data : GoString → Option Dynamic) (msgType : Dynamic)
    (hdecode : codec.decodeMap pkt.data = some data)
    (hfield : data codec.headerTypeField = some msgType)
    (hdyn : ∀ t, msgType ≠ .int64 t) :
    handlePacket codec env dht pkt = none := by
  cases msgType with
  | int64 t => exact absurd rfl (hdyn t)
  | string s => simp [handlePacket, hdecode, hfield]
  | list => simp [handlePacket, hdecode, hfield]
  | dict => simp [handlePacket, hdecode, hfield]

/-- C11, the failing input: on the datagram of the demo node whose decoded
map holds a byte string under the header field, `handlePacket` does not
return normally, it panics at the type assertion; on the datagrams without
header field and with the integer 7 as header it returns normally and leaves
the node state unchanged. -/
theorem handlePacket_string_header_panics :
    handlePacket demo.codec demo.env demo.node demo.stringHeaderPacket = none
      ∧ handlePacket demo.codec demo.env demo.node demo.noHeaderPacket = some demo.node
      ∧ handlePacket demo.codec demo.env demo.node demo.unknownTypePacket = some demo.node := by
  refine ⟨?_, ?_, ?_⟩
  · exact handlePacket_not_int64 demo.codec demo.env demo.node demo.stringHeaderPacket
      (fun k => if k = [48] then some (.string [97]) else none) (.string [97]) rfl rfl
      (by intro t h; cases h)
  · exact handlePacket_no_header demo.codec demo.env demo.node demo.noHeaderPacket
      (fun _ => none) rfl rfl
  · exact handlePacket_unknown_type demo.codec demo.env demo.node demo.unknownTypePacket
      (fun k => if k = [48] then some (.int64 7) else none) 7 rfl rfl
      (by decide) (by decide) (by decide)

end packets

section dispatch

variable {nodeIDLength : Nat} {RT ST TM Tx : Type}

/-- C12: a request from a sender other than the local node whose method name
is none of ping, store, find_node and find_value leaves the whole node state
as it was: no datagram is written and neither the value store nor the routing
table changes. -/
theorem handleRequest_unknown_method (env : Env nodeIDLength RT ST TM Tx)
    (dht : DHT nodeIDLength RT ST TM Tx) (addr : UDPAddr) (request : Request nodeIDLength)
    (hsender : request.NodeID ≠ dht.node.id)
    (hping : request.Method ≠ pingMethod) (hstore : request.Method ≠ storeMethod)
    (hfindNode : request.Method ≠ findNodeMethod)
    (hfindValue : request.Method ≠ findValueMethod) :
    handleRequest env dht addr request = some dht := by
  simp [handleRequest, bitmap.Equals_eq_false _ _ hsender, hping, hstore, hfindNode, hfindValue]

/-- C12, at the demo node: a request with the method name `get`. -/
theorem handleRequest_unknown_method_witness :
    handleRequest demo.env demo.node demo.addr (demo.request [103, 101, 116] [[3]])
      = some demo.node :=
  handleRequest_unknown_method demo.env demo.node demo.addr
    (demo.request [103, 101, 116] [[3]]) (by decide) (by decide) (by decide) (by decide)
    (by decide)

end dispatch

/-! ## The identifier type: bytes -/

set_option maxRecDepth 100000 in
/-- The inner loop of `PrefixLen`, checked on each of the 256 bytes: without
result the byte is 0; with result `j` bit `j` is set and no bit before it. -/
theorem firstSetBit_check : ∀ x : byte,
    (firstSetBit x).elim (decide (x = 0))
      (fun j => decide (j < 8 ∧ (x.val >>> (7 - j)) &&& 1 = 1
        ∧ ∀ k, k < j → (x.val >>> (7 - k)) &&& 1 = 0)) = true := by
  decide

theorem firstSetBit_none (x : byte) (h : firstSetBit x = none) : x = 0 := by
  have := firstSetBit_check x
  rw [h] at this
  simpa only [Option.elim, decide_eq_true_eq] using this

theorem firstSetBit_some (x : byte) (j : Nat) (h : firstSetBit x = some j) :
    j < 8 ∧ (x.val >>> (7 - j)) &&& 1 = 1 ∧ ∀ k, k < j → (x.val >>> (7 - k)) &&& 1 = 0 := by
  have := firstSetBit_check x
  rw [h] at this
  simpa only [Option.elim, decide_eq_true_eq] using this

theorem xor_lt_256 (x y : byte) : x.val ^^^ y.val < 256 :=
  Nat.xor_lt_two_pow (n := 8) x.isLt y.isLt

theorem xorByte_val (x y : byte) : (xorByte x y).val = x.val ^^^ y.val := by
  simp [xorByte, Nat.mod_eq_of_lt (xor_lt_256 x y)]

theorem xorByte_comm (x y : byte) : xorByte x y = xorByte y x := by
  apply Fin.ext
  rw [xorByte_val, xorByte_val, Nat.xor_comm]

theorem xorByte_self (x : byte) : xorByte x x = 0 := by
  apply Fin.ext
  rw [xorByte_val, Nat.xor_self]
  rfl

theorem xorByte_zero (x : byte) : xorByte x 0 = x := by
  apply Fin.ext
  rw [xorByte_val]
  simp

theorem xorByte_cancel (x y : byte) : xorByte (xorByte x y) y = x := by
  apply Fin.ext
  rw [xorByte_val, xorByte_val, Nat.xor_assoc, Nat.xor_self, Nat.xor_zero]

theorem xorByte_eq_zero_iff (x y : byte) : xorByte x y = 0 ↔ x = y := by
  constructor
  · intro h
    have hv : x.val ^^^ y.val = 0 := by
      rw [← xorByte_val, h]
      rfl
    exact Fin.ext (Nat.xor_eq_zero.mp hv)
  · intro h
    rw [h, xorByte_self]

/-! ## The identifier type: loops -/

/-- The outer loop of `PrefixLen` started at byte index `i`: either every
byte is 0 and the result is `numBuckets`, or the result is the position of
the first set bit, found in byte `m` of the list at bit `j`. -/
theorem prefixLenLoop_cases (N : Nat) (xs : List byte) (i : Nat) :
    (prefixLenLoop N i xs = N ∧ ∀ x ∈ xs, x = 0)
      ∨ ∃ m j, m < xs.length ∧ j < 8 ∧ prefixLenLoop N i xs = (i + m) * 8 + j
          ∧ (∀ n, n < m → xs.getD n 0 = 0)
          ∧ ((xs.getD m 0).val >>> (7 - j)) &&& 1 = 1
          ∧ ∀ k, k < j → ((xs.getD m 0).val >>> (7 - k)) &&& 1 = 0 := by
  induction xs generalizing i with
  | nil => exact Or.inl ⟨rfl, by simp⟩
  | cons x xs ih =>
    cases hx : firstSetBit x with
    | none =>
      have hzero : x = 0 := firstSetBit_none x hx
      rcases ih (i + 1) with ⟨hp, hall⟩ | ⟨m, j, hm, hj, hp, hbefore, hbit, hlow⟩
      · refine Or.inl ⟨by simp [prefixLenLoop, hx, hp], ?_⟩
        intro y hy
        rcases List.mem_cons.mp hy with h | h
        · rw [h, hzero]
        · exact hall y h
      · refine Or.inr ⟨m + 1, j, by simpa using hm, hj, ?_, ?_, by simpa using hbit,
          by simpa using hlow⟩
        · simp only [prefixLenLoop, hx, hp]
          ring
        · intro n hn
          cases n with
          | zero => simpa using hzero
          | succ n => simpa using hbefore n (by omega)
    | some j =>
      obtain ⟨hj, hbit, hlow⟩ := firstSetBit_some x j hx
      exact Or.inr ⟨0, j, by simp, hj, by simp [prefixLenLoop, hx], by simp,
        by simpa using hbit, by simpa using hlow⟩

theorem getD_eq_zero_of_all_zero (xs : List byte) (h : ∀ x ∈ xs, x = 0) (k : Nat) :
    xs.getD k 0 = 0 := by
  induction xs generalizing k with
  | nil => simp
  | cons x xs ih =>
    cases k with
    | zero => simpa using h x (List.mem_cons_self _ _)
    | succ k => simpa using ih (fun y hy => h y (List.mem_cons_of_mem _ hy)) k

/-- The loop of `PrefixLen` over a whole identifier returns the number of
bits exactly when every byte is 0. -/
theorem prefixLenLoop_eq_max_iff (xs : List byte) :
    prefixLenLoop (8 * xs.length) 0 xs = 8 * xs.length ↔ ∀ x ∈ xs, x = 0 := by
  rcases prefixLenLoop_cases (8 * xs.length) xs 0 with
    ⟨hp, hall⟩ | ⟨m, j, hm, hj, hp, -, hbit, -⟩
  · exact ⟨fun _ => hall, fun _ => hp⟩
  · constructor
    · intro h
      omega
    · intro hall
      rw [getD_eq_zero_of_all_zero xs hall m] at hbit
      simp at hbit

theorem zipWith_xorByte_all_zero_iff (xs ys : List byte) (h : xs.length = ys.length) :
    (∀ z ∈ List.zipWith xorByte xs ys, z = 0) ↔ xs = ys := by
  induction xs generalizing ys with
  | nil => cases ys <;> simp_all
  | cons x xs ih =>
    cases ys with
    | nil => simp at h
    | cons y ys =>
      have h' : xs.length = ys.length := by simpa using h
      simp [List.zipWith, xorByte_eq_zero_iff, ih ys h']

theorem zipWith_xorByte_self (xs : List byte) :
    List.zipWith xorByte xs xs = List.replicate xs.length 0 := by
  induction xs with
  | nil => rfl
  | cons x xs ih => simp [List.zipWith, xorByte_self, ih, List.replicate_succ]

theorem zipWith_xorByte_zero (xs : List byte) :
    List.zipWith xorByte xs (List.replicate xs.length 0) = xs := by
  induction xs with
  | nil => rfl
  | cons x xs ih => simp [List.zipWith, xorByte_zero, ih, List.replicate_succ]

theorem zipWith_xorByte_cancel (xs ys : List byte) (h : xs.length = ys.length) :
    List.zipWith xorByte (List.zipWith xorByte xs ys) ys = xs := by
  induction xs generalizing ys with
  | nil => cases ys <;> simp
  | cons x xs ih =>
    cases ys with
    | nil => simp at h
    | cons y ys =>
      have h' : xs.length = ys.length := by simpa using h
      simp [List.zipWith, xorByte_cancel, ih ys h']

/-! ## The identifier type: PrefixLen and Xor -/

section identifiers

variable {nodeIDLength : Nat}

theorem bitAt_eq_zero_of_byte_zero (b : bitmap nodeIDLength) (k : Nat)
    (h : b.bytes.getD (k / 8) 0 = 0) : b.bitAt k = 0 := by
  unfold bitmap.bitAt bitmap.byteAt
  rw [h]
  simp

/-- The position that `PrefixLen` returns: at most the number of bits, with
only 0 bits before it and, when it is a position of the identifier, a 1 bit
at it. -/
theorem prefixLen_spec (b : bitmap nodeIDLength) :
    b.PrefixLen (numBuckets nodeIDLength) ≤ numBuckets nodeIDLength
      ∧ (∀ k, k < b.PrefixLen (numBuckets nodeIDLength) → b.bitAt k = 0)
      ∧ (b.PrefixLen (numBuckets nodeIDLength) < numBuckets nodeIDLength →
          b.bitAt (b.PrefixLen (numBuckets nodeIDLength)) = 1) := by
  have hlen := b.len
  unfold bitmap.PrefixLen numBuckets
  rcases prefixLenLoop_cases (8 * nodeIDLength) b.bytes 0 with
    ⟨hp, hall⟩ | ⟨m, j, hm, hj, hp, hbefore, hbit, hlow⟩
  · rw [hp]
    refine ⟨le_refl _, ?_, fun h => absurd h (lt_irrefl _)⟩
    intro k _
    exact bitAt_eq_zero_of_byte_zero b k (getD_eq_zero_of_all_zero b.bytes hall _)
  · rw [hp]
    refine ⟨by omega, ?_, ?_⟩
    · intro k hk
      by_cases hbyte : k / 8 < m
      · exact bitAt_eq_zero_of_byte_zero b k (hbefore _ hbyte)
      · have hdiv : k / 8 = m := by omega
        have hmod : k % 8 < j := by omega
        unfold bitmap.bitAt bitmap.byteAt
        rw [hdiv]
        exact hlow (k % 8) hmod
    · intro _
      have hdiv : ((0 + m) * 8 + j) / 8 = m := by omega
      have hmod : ((0 + m) * 8 + j) % 8 = j := by omega
      unfold bitmap.bitAt bitmap.byteAt
      rw [hdiv, hmod]
      exact hbit

theorem prefixLen_eq_max_iff (b : bitmap nodeIDLength) :
    b.PrefixLen (numBuckets nodeIDLength) = numBuckets nodeIDLength ↔ ∀ x ∈ b.bytes, x = 0 := by
  have h := prefixLenLoop_eq_max_iff b.bytes
  rw [b.len] at h
  exact h

theorem xor_prefixLen_eq_max_iff (a b : bitmap nodeIDLength) :
    (a.Xor b).PrefixLen (numBuckets nodeIDLength) = numBuckets nodeIDLength ↔ a = b := by
  rw [prefixLen_eq_max_iff]
  show (∀ z ∈ List.zipWith xorByte a.bytes b.bytes, z = 0) ↔ a = b
  rw [zipWith_xorByte_all_zero_iff _ _ (a.len.trans b.len.symm)]
  exact ⟨bitmap.ext_bytes a b, fun h => h ▸ rfl⟩

/-- C13: for every identifier, `PrefixLen` is the number of leading zero
bits, read from the most significant bit of byte 0: it is at most
`8 * nodeIDLength`, every bit at a position below it is 0, the bit at its
position is 1 whenever it is below `8 * nodeIDLength`, and on the all-zero
identifier it is the maximum `8 * nodeIDLength`, which is `numBuckets`. -/
theorem PrefixLen_counts_leading_zero_bits (b : bitmap nodeIDLength) :
    b.PrefixLen (numBuckets nodeIDLength) ≤ 8 * nodeIDLength
      ∧ (∀ k, k < b.PrefixLen (numBuckets nodeIDLength) → b.bitAt k = 0)
      ∧ (b.PrefixLen (numBuckets nodeIDLength) < 8 * nodeIDLength →
          b.bitAt (b.PrefixLen (numBuckets nodeIDLength)) = 1)
      ∧ (bitmap.zero nodeIDLength).PrefixLen (numBuckets nodeIDLength) = 8 * nodeIDLength := by
  obtain ⟨hle, hbelow, hat⟩ := prefixLen_spec b
  refine ⟨hle, hbelow, hat, ?_⟩
  apply (prefixLen_eq_max_iff (bitmap.zero nodeIDLength)).mpr
  intro x hx
  exact List.eq_of_mem_replicate hx

/-- C14: `PrefixLen` does not grow when bits are set: if every bit of the
identifier `x` that is 1 is also 1 in `y`, then `PrefixLen` of `y` is at most
`PrefixLen` of `x`. The bits are those at the positions below
`8 * nodeIDLength`, the positions of an identifier. -/
theorem PrefixLen_antitone (x y : bitmap nodeIDLength)
    (hbits : ∀ k, k < 8 * nodeIDLength → x.bitAt k = 1 → y.bitAt k = 1) :
    y.PrefixLen (numBuckets nodeIDLength) ≤ x.PrefixLen (numBuckets nodeIDLength) := by
  obtain ⟨hxle, -, hxat⟩ := prefixLen_spec x
  obtain ⟨hyle, hybelow, -⟩ := prefixLen_spec y
  by_contra hgt
  have hlt : x.PrefixLen (numBuckets nodeIDLength) < y.PrefixLen (numBuckets nodeIDLength) :=
    Nat.lt_of_not_le hgt
  have hxlt : x.PrefixLen (numBuckets nodeIDLength) < numBuckets nodeIDLength :=
    Nat.lt_of_lt_of_le hlt hyle
  have hone := hbits _ hxlt (hxat hxlt)
  rw [hybelow _ hlt] at hone
  exact absurd hone (by decide)

/-- C14, on identifiers of one byte: `0x11` has its bits among those of `0x31`. -/
theorem PrefixLen_antitone_witness :
    (demo.mkID 49).PrefixLen (numBuckets 1) ≤ (demo.mkID 17).PrefixLen (numBuckets 1) :=
  PrefixLen_antitone (demo.mkID 17) (demo.mkID 49) (by decide)

/-- C15: `Xor` is commutative, byte for byte. -/
theorem Xor_comm (a b : bitmap nodeIDLength) : a.Xor b = b.Xor a := by
  apply bitmap.ext_bytes
  show List.zipWith xorByte a.bytes b.bytes = List.zipWith xorByte b.bytes a.bytes
  exact List.zipWith_comm_of_comm xorByte xorByte_comm a.bytes b.bytes

/-- C16: `Xor` of an identifier with itself is the all-zero identifier, and
the all-zero identifier is the identity of `Xor`. -/
theorem Xor_self_and_zero (a : bitmap nodeIDLength) :
    a.Xor a = bitmap.zero nodeIDLength ∧ a.Xor (bitmap.zero nodeIDLength) = a := by
  constructor
  · apply bitmap.ext_bytes
    show List.zipWith xorByte a.bytes a.bytes = List.replicate nodeIDLength 0
    rw [zipWith_xorByte_self, a.len]
  · apply bitmap.ext_bytes
    show List.zipWith xorByte a.bytes (List.replicate nodeIDLength 0) = a.bytes
    have h := zipWith_xorByte_zero a.bytes
    rw [a.len] at h
    exact h

/-- C17: `Xor` with the same identifier twice gives back the first operand. -/
theorem Xor_cancel (a b : bitmap nodeIDLength) : (a.Xor b).Xor b = a := by
  apply bitmap.ext_bytes
  show List.zipWith xorByte (List.zipWith xorByte a.bytes b.bytes) b.bytes = a.bytes
  exact zipWith_xorByte_cancel _ _ (a.len.trans b.len.symm)

end identifiers

/-! ## The identifier type: Less and Equals -/

theorem lessLoop_irrefl (xs : List byte) : lessLoop xs xs = false := by
  induction xs with
  | nil => rfl
  | cons x xs ih => simp [lessLoop, ih]

theorem lessLoop_trans (xs ys zs : List byte) (hxy : lessLoop xs ys = true)
    (hyz : lessLoop ys zs = true) : lessLoop xs zs = true := by
  induction xs generalizing ys zs with
  | nil => cases ys <;> simp [lessLoop] at hxy
  | cons x xs ih =>
    cases ys with
    | nil => simp [lessLoop] at hxy
    | cons y ys =>
      cases zs with
      | nil => simp [lessLoop] at hyz
      | cons z zs =>
        by_cases h₁ : x = y
        · subst h₁
          by_cases h₂ : x = z
          · subst h₂
            simp only [lessLoop, ne_eq, not_true_eq_false, if_false] at hxy hyz ⊢
            exact ih ys zs hxy hyz
          · simp only [lessLoop, ne_eq, h₂, not_false_eq_true, if_true] at hyz ⊢
            exact hyz
        · simp only [lessLoop, ne_eq, h₁, not_false_eq_true, if_true, decide_eq_true_eq] at hxy
          by_cases h₂ : y = z
          · subst h₂
            simp [lessLoop, h₁, hxy]
          · simp only [lessLoop, ne_eq, h₂, not_false_eq_true, if_true, decide_eq_true_eq] at hyz
            have hlt : x.val < z.val := Nat.lt_trans hxy hyz
            have hne : x ≠ z := fun h => by rw [h] at hlt; exact absurd hlt (lt_irrefl _)
            simp [lessLoop, hne, hlt]

/-- The loop of `Less` is the lexicographic comparison: it returns true exactly
when at the first index where the lists differ the left byte is the smaller. -/
theorem lessLoop_lex (xs ys : List byte) (h : xs.length = ys.length) :
    lessLoop xs ys = true ↔
      ∃ k, k < xs.length ∧ (∀ j, j < k → xs.getD j 0 = ys.getD j 0)
        ∧ (xs.getD k 0).val < (ys.getD k 0).val := by
  induction xs generalizing ys with
  | nil => cases ys <;> simp [lessLoop]
  | cons x xs ih =>
    cases ys with
    | nil => simp at h
    | cons y ys =>
      have h' : xs.length = ys.length := by simpa using h
      by_cases hxy : x = y
      · subst hxy
        simp only [lessLoop, ne_eq, not_true_eq_false, if_false]
        rw [ih ys h']
        constructor
        · rintro ⟨k, hk, hbefore, hlt⟩
          refine ⟨k + 1, by simpa using hk, ?_, by simpa using hlt⟩
          intro j hj
          cases j with
          | zero => simp
          | succ j => simpa using hbefore j (by omega)
        · rintro ⟨k, hk, hbefore, hlt⟩
          cases k with
          | zero => simp at hlt
          | succ k =>
            refine ⟨k, by simpa using hk, ?_, by simpa using hlt⟩
            intro j hj
            simpa using hbefore (j + 1) (by omega)
      · simp only [lessLoop, ne_eq, hxy, not_false_eq_true, if_true, decide_eq_true_eq]
        constructor
        · intro hlt
          exact ⟨0, by simp, by simp, by simpa using hlt⟩
        · rintro ⟨k, -, hbefore, hlt⟩
          cases k with
          | zero => simpa using hlt
          | succ k => exact absurd (by simpa using hbefore 0 (by omega)) hxy

theorem eq_iff_getD_eq (xs ys : List byte) (h : xs.length = ys.length) :
    xs = ys ↔ ∀ k, k < xs.length → (xs.getD k 0).val = (ys.getD k 0).val := by
  induction xs generalizing ys with
  | nil => cases ys <;> simp_all
  | cons x xs ih =>
    cases ys with
    | nil => simp at h
    | cons y ys =>
      have h' : xs.length = ys.length := by simpa using h
      constructor
      · intro heq k _
        rw [heq]
      · intro hall
        have hhead : x = y := Fin.ext (by simpa using hall 0 (by simp))
        have htail : xs = ys := (ih ys h').mpr (fun k hk => by
          simpa using hall (k + 1) (by simpa using hk))
        rw [hhead, htail]

theorem lessLoop_trichotomy (xs ys : List byte) (h : xs.length = ys.length) :
    (lessLoop xs ys = true ∧ xs ≠ ys ∧ lessLoop ys xs = false)
      ∨ (lessLoop xs ys = false ∧ xs = ys ∧ lessLoop ys xs = false)
      ∨ (lessLoop xs ys = false ∧ xs ≠ ys ∧ lessLoop ys xs = true) := by
  induction xs generalizing ys with
  | nil => cases ys <;> simp_all [lessLoop]
  | cons x xs ih =>
    cases ys with
    | nil => simp at h
    | cons y ys =>
      have h' : xs.length = ys.length := by simpa using h
      by_cases hxy : x = y
      · subst hxy
        simpa [lessLoop] using ih ys h'
      · have hyx : y ≠ x := fun h => hxy h.symm
        have hval : x.val ≠ y.val := fun h => hxy (Fin.ext h)
        rcases Nat.lt_or_gt_of_ne hval with hlt | hgt
        · left
          have hle : x ≤ y := Fin.le_def.mpr (Nat.le_of_lt hlt)
          simp [lessLoop, hxy, hyx, hlt, hle]
        · right; right
          have hle : y ≤ x := Fin.le_def.mpr (Nat.le_of_lt hgt)
          simp [lessLoop, hxy, hyx, hgt, hle]

section order

variable {nodeIDLength : Nat}

/-- C18: `Less` is a strict total lexicographic order on identifiers whose
equality is `Equals`. `Less` is irreflexive and transitive; `Equals` holds
exactly when the two identifiers agree in every byte; `Less` holds exactly
when, at the first index from 0 where they differ, the byte of the left one is
the smaller as an unsigned value; and for any two identifiers exactly one of
`a.Less(b)`, `a.Equals(b)`, `b.Less(a)` holds. -/
theorem Less_strict_total_order :
    (∀ a : bitmap nodeIDLength, a.Less a = false)
      ∧ (∀ a b c : bitmap nodeIDLength,
          a.Less b = true → b.Less c = true → a.Less c = true)
      ∧ (∀ a b : bitmap nodeIDLength,
          a.Equals b = true ↔ ∀ k, k < nodeIDLength → a.byteAt k = b.byteAt k)
      ∧ (∀ a b : bitmap nodeIDLength,
          a.Less b = true ↔ ∃ k, k < nodeIDLength
            ∧ (∀ j, j < k → a.byteAt j = b.byteAt j) ∧ a.byteAt k < b.byteAt k)
      ∧ (∀ a b : bitmap nodeIDLength,
          (a.Less b = true ∧ a.Equals b = false ∧ b.Less a = false)
            ∨ (a.Less b = false ∧ a.Equals b = true ∧ b.Less a = false)
            ∨ (a.Less b = false ∧ a.Equals b = false ∧ b.Less a = true)) := by
  refine ⟨?_, ?_, ?_, ?_, ?_⟩
  · intro a
    exact lessLoop_irrefl a.bytes
  · intro a b c hab hbc
    exact lessLoop_trans a.bytes b.bytes c.bytes hab hbc
  · intro a b
    have hlen : a.bytes.length = b.bytes.length := a.len.trans b.len.symm
    unfold bitmap.Equals bitmap.byteAt
    rw [equalsLoop_iff _ _ hlen, eq_iff_getD_eq _ _ hlen, a.len]
  · intro a b
    have hlen : a.bytes.length = b.bytes.length := a.len.trans b.len.symm
    unfold bitmap.Less bitmap.byteAt
    rw [lessLoop_lex _ _ hlen, a.len]
    constructor
    · rintro ⟨k, hk, hbefore, hlt⟩
      exact ⟨k, hk, fun j hj => congrArg Fin.val (hbefore j hj), hlt⟩
    · rintro ⟨k, hk, hbefore, hlt⟩
      exact ⟨k, hk, fun j hj => Fin.ext (hbefore j hj), hlt⟩
  · intro a b
    have hlen : a.bytes.length = b.bytes.length := a.len.trans b.len.symm
    have hE : a.Equals b = true ↔ a.bytes = b.bytes := equalsLoop_iff _ _ hlen
    have hF : a.bytes ≠ b.bytes → a.Equals b = false := by
      intro hne
      cases h : a.Equals b
      · rfl
      · exact absurd (hE.mp h) hne
    unfold bitmap.Less
    rcases lessLoop_trichotomy a.bytes b.bytes hlen with
      ⟨h₁, h₂, h₃⟩ | ⟨h₁, h₂, h₃⟩ | ⟨h₁, h₂, h₃⟩
    · exact Or.inl ⟨h₁, hF h₂, h₃⟩
    · exact Or.inr (Or.inl ⟨h₁, hE.mpr h₂, h₃⟩)
    · exact Or.inr (Or.inr ⟨h₁, hF h₂, h₃⟩)

/-- C19: the sentinel bucket index is reached only at distance zero: the
prefix length of `a.Xor(b)` is `numBuckets` exactly when `a.Equals(b)`. Hence
two identifiers that `Equals` tells apart are at a distance with prefix length
below `numBuckets`, and whenever `handleRequest` does anything at all, that
is, whenever the request passed the self-check, the distance between the
sender and the local node has prefix length below `numBuckets`. -/
theorem Xor_PrefixLen_sentinel_iff :
    (∀ a b : bitmap nodeIDLength,
        (a.Xor b).PrefixLen (numBuckets nodeIDLength) = numBuckets nodeIDLength
          ↔ a.Equals b = true)
      ∧ (∀ a b : bitmap nodeIDLength, a.Equals b = false →
          (a.Xor b).PrefixLen (numBuckets nodeIDLength) < numBuckets nodeIDLength)
      ∧ (∀ (RT ST TM Tx : Type) (env : Env nodeIDLength RT ST TM Tx)
          (dht dht' : DHT nodeIDLength RT ST TM Tx) (addr : UDPAddr)
          (request : Request nodeIDLength),
          handleRequest env dht addr request = some dht' → dht'.trace ≠ dht.trace →
          (request.NodeID.Xor dht.node.id).PrefixLen (numBuckets nodeIDLength)
            < numBuckets nodeIDLength) := by
  have hiff : ∀ a b : bitmap nodeIDLength,
      (a.Xor b).PrefixLen (numBuckets nodeIDLength) = numBuckets nodeIDLength
        ↔ a.Equals b = true := by
    intro a b
    rw [xor_prefixLen_eq_max_iff, bitmap.Equals_iff]
  have hlt : ∀ a b : bitmap nodeIDLength, a ≠ b →
      (a.Xor b).PrefixLen (numBuckets nodeIDLength) < numBuckets nodeIDLength := by
    intro a b hne
    have hle := (prefixLen_spec (a.Xor b)).1
    have hneq : (a.Xor b).PrefixLen (numBuckets nodeIDLength) ≠ numBuckets nodeIDLength :=
      fun h => hne ((xor_prefixLen_eq_max_iff a b).mp h)
    exact Nat.lt_of_le_of_ne hle hneq
  refine ⟨hiff, ?_, ?_⟩
  · intro a b hE
    apply hlt
    intro heq
    rw [(bitmap.Equals_iff a b).mpr heq] at hE
    exact absurd hE (by decide)
  · intro RT ST TM Tx env dht dht' addr request hreturn hchanged
    apply hlt
    intro hself
    rw [handleRequest_self_aux env dht addr request hself] at hreturn
    exact hchanged (by rw [← Option.some.inj hreturn])

/-- C19, on identifiers of one byte: `[7]` and `[1]` are told apart by
`Equals`, and their distance `[6]` has prefix length 5, below 8. -/
theorem Xor_PrefixLen_sentinel_iff_witness :
    (demo.mkID 7).Equals (demo.mkID 1) = false
      ∧ ((demo.mkID 7).Xor (demo.mkID 1)).PrefixLen (numBuckets 1) < numBuckets 1 :=
  ⟨by decide, Xor_PrefixLen_sentinel_iff.2.1 (demo.mkID 7) (demo.mkID 1) (by decide)⟩

end order

/-! ## Absence of panics on the find paths -/

section safety

variable {nodeIDLength : Nat} {RT ST TM Tx : Type}

/-- The function `newBitmapFromString` panics exactly on a string whose length
is not `nodeIDLength`. -/
theorem newBitmapFromString_eq_none_iff (data : GoString) :
    newBitmapFromString nodeIDLength data = none ↔ data.length ≠ nodeIDLength := by
  unfold newBitmapFromString newBitmapFromBytes
  by_cases h : data.length = nodeIDLength <;> simp [h]

/-- The function `doFindNodes` panics exactly when the request has no first
argument or its first argument does not have identifier length. -/
theorem doFindNodes_eq_none_iff (env : Env nodeIDLength RT ST TM Tx)
    (dht : DHT nodeIDLength RT ST TM Tx) (addr : UDPAddr) (request : Request nodeIDLength) :
    doFindNodes env dht addr request = none
      ↔ ¬ ∃ arg0, request.Args[0]? = some arg0 ∧ arg0.length = nodeIDLength := by
  cases h0 : request.Args[0]? with
  | none => simp [doFindNodes, h0]
  | some arg0 =>
    by_cases hlen : arg0.length = nodeIDLength
    · have hnew := newBitmapFromString_bytes (⟨arg0, hlen⟩ : bitmap nodeIDLength)
      have hnew' : newBitmapFromString nodeIDLength arg0 = some ⟨arg0, hlen⟩ := hnew
      simp only [doFindNodes, h0, hnew']
      constructor
      · intro h
        split at h <;> exact absurd h (by simp)
      · intro h
        exact absurd ⟨arg0, rfl, hlen⟩ h
    · have hnone : newBitmapFromString nodeIDLength arg0 = none :=
        (newBitmapFromString_eq_none_iff arg0).mpr hlen
      simp [doFindNodes, h0, hnone, hlen]

/-- The calls to `GetClosest` that one run of `handleRequest` adds: the run
returns normally, and every target it asks for has the bytes of the first
argument of the request. -/
theorem handleRequest_queries (env : Env nodeIDLength RT ST TM Tx)
    (dht : DHT nodeIDLength RT ST TM Tx) (addr : UDPAddr) (request : Request nodeIDLength) :
    ∃ dht' queried, handleRequest env dht addr request = some dht'
      ∧ closestQueries dht'.trace = closestQueries dht.trace ++ queried
      ∧ ∀ q ∈ queried, request.Args[0]? = some q.1.bytes := by
  by_cases hself : request.NodeID = dht.node.id
  · exact ⟨dht, [], handleRequest_self_aux env dht addr request hself, by simp, by simp⟩
  have hE := bitmap.Equals_eq_false _ _ hself
  by_cases hping : request.Method = pingMethod
  · refine ⟨_, [], by simp only [handleRequest, hE, hping]; rfl, ?_, by simp⟩
    rw [updateSender_closestQueries, send_closestQueries]
    simp
  by_cases hstore : request.Method = storeMethod
  · by_cases hkey : request.StoreArgs.BlobHash = []
    · exact ⟨dht, [], by simp [handleRequest, hE, hstore, storeMethod_ne_ping, hkey],
        by simp, by simp⟩
    · refine ⟨_, [], by
        simp only [handleRequest, hE, hstore, storeMethod_ne_ping, hkey]; rfl, ?_, by simp⟩
      rw [updateSender_closestQueries, send_closestQueries]
      simp [closestQueries_append, closestQueries]
  by_cases hfind : request.Method = findNodeMethod ∨ request.Method = findValueMethod
  · by_cases hnil : request.Args = []
    · exact ⟨dht, [], handleRequest_find_dropped env dht addr request hfind (Or.inl hnil),
        by simp, by simp⟩
    obtain ⟨key, rest, hargs⟩ := List.exists_cons_of_ne_nil hnil
    by_cases hlen : key.length = nodeIDLength
    · rcases hfind with hm | hm
      · obtain ⟨d, hd, -, -, -, -, -, hq, -⟩ := doFindNodes_spec env dht addr request
          ⟨key, hlen⟩ rest hargs
        refine ⟨updateSender env addr request d, [(⟨key, hlen⟩, env.bucketSize)], ?_, ?_, ?_⟩
        · rw [handleRequest_findNode_eq env dht addr request key rest hm hself hargs hlen, hd]
          rfl
        · rw [updateSender_closestQueries, hq]
        · simp [hargs]
      · by_cases hget : env.storeGet dht.store key = []
        · obtain ⟨d, hd, -, -, -, -, -, hq, -⟩ := doFindNodes_spec env
            (dht.record (.storeGet key)) addr request ⟨key, hlen⟩ rest hargs
          refine ⟨updateSender env addr request d, [(⟨key, hlen⟩, env.bucketSize)], ?_, ?_, ?_⟩
          · rw [handleRequest_findValue_miss_eq env dht addr request key rest hm hself hargs
              hlen hget, hd]
            rfl
          · rw [updateSender_closestQueries, hq]
            simp [DHT.record, closestQueries_append, closestQueries]
          · simp [hargs]
        · have hpos : 0 < (env.storeGet dht.store key).length := List.length_pos.mpr hget
          refine ⟨_, [], by
            simp only [handleRequest, hE, hm, findValueMethod_ne_ping, findValueMethod_ne_store,
              findValueMethod_ne_findNode, hargs]
            simp [hlen, hpos]
            rfl, ?_, by simp⟩
          rw [updateSender_closestQueries, send_closestQueries]
          simp [DHT.record, closestQueries_append, closestQueries]
    · exact ⟨dht, [], handleRequest_find_dropped env dht addr request hfind
        (Or.inr ⟨key, rest, hargs, hlen⟩), by simp, by simp⟩
  · have hfn : request.Method ≠ findNodeMethod := fun h => hfind (Or.inl h)
    have hfv : request.Method ≠ findValueMethod := fun h => hfind (Or.inr h)
    exact ⟨dht, [], by simp [handleRequest, hE, hping, hstore, hfn, hfv], by simp, by simp⟩

/-- C20: `handleRequest` never panics: for every request and every node state
it returns normally, so on the find paths the access to `Args[0]` is in range
and the length panic of `newBitmapFromBytes` is not reached; every identifier
that it hands to `GetClosest` has exactly the bytes of `Args[0]`. The panics
exist in `doFindNodes` taken alone: it fails exactly when the request has no
first argument or the first argument does not have identifier length, the two
cases that the checks of `handleRequest` exclude before the call, and
`newBitmapFromString` fails exactly on a length other than `nodeIDLength` and
otherwise builds the identifier with the bytes given. -/
theorem handleRequest_find_never_panics (env : Env nodeIDLength RT ST TM Tx)
    (dht : DHT nodeIDLength RT ST TM Tx) (addr : UDPAddr) (request : Request nodeIDLength) :
    (∃ dht' queried, handleRequest env dht addr request = some dht'
        ∧ closestQueries dht'.trace = closestQueries dht.trace ++ queried
        ∧ ∀ q ∈ queried, request.Args[0]? = some q.1.bytes)
      ∧ (doFindNodes env dht addr request = none
          ↔ ¬ ∃ arg0, request.Args[0]? = some arg0 ∧ arg0.length = nodeIDLength)
      ∧ (∀ data : GoString, newBitmapFromString nodeIDLength data = none
          ↔ data.length ≠ nodeIDLength)
      ∧ (∀ (data : GoString) (b : bitmap nodeIDLength),
          newBitmapFromString nodeIDLength data = some b → b.bytes = data) := by
  refine ⟨handleRequest_queries env dht addr request,
    doFindNodes_eq_none_iff env dht addr request,
    fun data => newBitmapFromString_eq_none_iff data, ?_⟩
  intro data b hb
  unfold newBitmapFromString newBitmapFromBytes at hb
  by_cases h : data.length = nodeIDLength
  · simp only [ne_eq, h, not_true_eq_false, dite_false, Option.some.injEq] at hb
    rw [← hb]
  · simp [h] at hb

end safety

end dht
